import Mathlib

/-!
# Verification of `examples/cpp/metal_capture.cpp`

The program builds a dense and a quantized gated feed-forward block on top of the MLX
tensor library, evaluates each forward pass inside a GPU trace capture and prints two
summary statistics of the difference of the outputs.

The embedding is shallow.  A tensor handle (`mlx::core::array`) is the index of a node in a
lazily evaluated computation graph; the graph, the set of materialised nodes, the global
random key counter, the log of evaluation and capture calls and the standard output make up
the `World` that every library call threads through.  Every library call either returns a
result and a new world or raises a `LibError` (a C++ exception that the program never
catches).

The definitions are kept apart by origin:

* the tensor library itself is not part of the example's source, so its operations are
  modelled (section `Library`); the default arguments of `quantize` and `quantized_matmul`,
  declared in the library header, are a parameter (`QuantDefaults`);
* `FeedForward`, `QuantizedFeedForward` and `main` are translated from the source
  statement by statement (section `Program`);
* `Interp`, `denote` and `World.value` give the graph a meaning in an arbitrary carrier,
  so that statements about the tensors computed can be made without floating point
  (section `Meaning`);
* closed forms of the graphs the program builds, and small example worlds, are used by the
  proofs and the examples (section `Graphs`).
-/

namespace MetalCapture

/-! ## Data model -/

/-- Element types named by the program (`mlx::core::float16`) or by the library default. -/
inductive Dtype where
  | float16
  | float32
  deriving DecidableEq, Repr

/-- A decimal literal of the source text: `digits / 10 ^ places`. -/
structure Dec where
  digits : Int
  places : Nat
  deriving DecidableEq, Repr

/-- The three results of one `quantize` call, in the order the library returns them. -/
inductive QPart where
  | data
  | scale
  | bias
  deriving DecidableEq, Repr

/-- Primitive of a graph node. -/
inductive Op where
  | normal (key : Nat) (dtype : Dtype) (loc scale : Dec)
  | matmul
  | multiply
  | subtract
  | sigmoid
  | abs
  | mean
  | max
  | quantize (part : QPart) (group_size bits : Nat)
  | quantized_matmul (transpose : Bool) (group_size bits : Nat)
  deriving DecidableEq, Repr

/-- A node of the lazy computation graph: its primitive, the handles of its inputs and the
shape the library computed for it when the node was built. -/
structure Node where
  op : Op
  inputs : List Nat
  shape : List Nat
  deriving DecidableEq, Repr

/-- Calls with an effect outside the graph, in program order. `eval` records the handles it was
given and the nodes it had to compute. -/
inductive Event where
  | eval (targets computed : List Nat)
  | start_capture (path : String)
  | stop_capture
  deriving DecidableEq, Repr

/-- What is written to `std::cout`: the scalar read from a node, a string, or `std::endl`. -/
inductive Out where
  | scalar (src : Nat)
  | text (s : String)
  | endl
  deriving DecidableEq, Repr

/-- Exceptions of the tensor library. -/
inductive LibError where
  | invalid_handle
  | matmul_shape
  | broadcast_shape
  | quantize_shape
  | quantize_params
  | quantized_matmul_shape
  | item_size
  deriving DecidableEq, Repr

/-- Everything the library calls of the program read or write. -/
structure World where
  nodes : List Node
  evaled : List Nat
  keys : Nat
  events : List Event
  stdout : List Out
  deriving DecidableEq, Repr

/-- State of a fresh process: empty graph, nothing evaluated, nothing printed. -/
def World.init : World := ⟨[], [], 0, [], []⟩

/-- Values of the default arguments of `quantize` and `quantized_matmul`: the group size, the
width of a quantized element in bits, and whether the quantized multiply takes the weight
transposed. They are declared in the library header, which is not part of the example, and
are therefore a parameter. (The source builds the quantized weight of the first layer as
`{hidden_dim, dim}` and multiplies an input `[n, dim]` by it with `dim ≠ hidden_dim` in
`main`, which only a transposed multiply accepts.) -/
structure QuantDefaults where
  group_size : Nat
  bits : Nat
  transpose : Bool
  deriving DecidableEq, Repr

/-! ## Library -/

section Library

/-- Shape of a handle, or `invalid_handle` when the index names no node. -/
def World.shapeOf (w : World) (a : Nat) : Except LibError (List Nat) :=
  match w.nodes[a]? with
  | some nd => .ok nd.shape
  | none => .error .invalid_handle

/-- Append a node to the graph and return its handle. -/
def World.push (w : World) (nd : Node) : Nat × World :=
  (w.nodes.length, { w with nodes := w.nodes ++ [nd] })

/-- Modelled from the spec: `random::normal(shape, dtype, loc, scale)` of the tensor library,
which is not under the example's source ("tensor construction from a random-normal
distribution with (shape, precision, mean, stddev)"). The call is lazy: it adds a leaf node
drawing the next key of the global key sequence. -/
def random.normal (shape : List Nat) (dtype : Dtype) (loc scale : Dec) (w : World) :
    Except LibError (Nat × World) :=
  .ok ((({ w with keys := w.keys + 1 }).push ⟨.normal w.keys dtype loc scale, [], shape⟩))

/-- Modelled from the spec: result shape of the library's matrix multiply. The right operand is
a matrix `[k, m]`; the left operand may carry any leading dimensions as long as its trailing
dimension is `k` ("any leading dimensions allowed as long as the trailing dimension equals
dim"); anything else is the library's shape-mismatch failure. -/
def matmulShape (a b : List Nat) : Except LibError (List Nat) :=
  match b with
  | [k, m] =>
    match a.getLast? with
    | some k' => if k' = k then .ok (a.dropLast ++ [m]) else .error .matmul_shape
    | none => .error .matmul_shape
  | _ => .error .matmul_shape

/-- Modelled from the spec: `matmul(a, b)` of the tensor library (not under the example's
source). Shapes are checked when the node is built; nothing is computed. -/
def matmul (a b : Nat) (w : World) : Except LibError (Nat × World) := do
  let sa ← w.shapeOf a
  let sb ← w.shapeOf b
  let s ← matmulShape sa sb
  pure (w.push ⟨.matmul, [a, b], s⟩)

/-- Modelled from the spec: an elementwise binary operation of the tensor library (not under
the example's source). The spec only says "elementwise" and "shape mismatches"; the model
takes the strictest reading and accepts operands of equal shape only. -/
def elementwise (op : Op) (a b : Nat) (w : World) : Except LibError (Nat × World) := do
  let sa ← w.shapeOf a
  let sb ← w.shapeOf b
  if sa = sb then pure (w.push ⟨op, [a, b], sa⟩) else .error .broadcast_shape

/-- Modelled from the spec: `operator*` on arrays, the elementwise multiply. -/
def multiply (a b : Nat) (w : World) : Except LibError (Nat × World) := elementwise .multiply a b w

/-- Modelled from the spec: `operator-` on arrays, the elementwise subtraction. -/
def subtract (a b : Nat) (w : World) : Except LibError (Nat × World) := elementwise .subtract a b w

/-- Modelled from the spec: an elementwise unary operation of the tensor library; the result
has the shape of the operand. -/
def unary (op : Op) (a : Nat) (w : World) : Except LibError (Nat × World) := do
  let sa ← w.shapeOf a
  pure (w.push ⟨op, [a], sa⟩)

/-- Modelled from the spec: `sigmoid(a)`, the elementwise sigmoid. -/
def sigmoid (a : Nat) (w : World) : Except LibError (Nat × World) := unary .sigmoid a w

/-- Modelled from the spec: `abs(a)`, the elementwise absolute value. -/
def abs (a : Nat) (w : World) : Except LibError (Nat × World) := unary .abs a w

/-- Modelled from the spec: a reduction over all axes ("reduction to mean and to
max-of-absolute-value"); the result is a zero-dimensional tensor. -/
def reduceAll (op : Op) (a : Nat) (w : World) : Except LibError (Nat × World) := do
  let _ ← w.shapeOf a
  pure (w.push ⟨op, [a], []⟩)

/-- Modelled from the spec: `mean(a)` over all axes. -/
def mean (a : Nat) (w : World) : Except LibError (Nat × World) := reduceAll .mean a w

/-- Modelled from the spec: `max(a)` over all axes. -/
def max (a : Nat) (w : World) : Except LibError (Nat × World) := reduceAll .max a w

/-- Number of quantized elements packed into one 32-bit word. -/
def elPerInt (bits : Nat) : Nat := 32 / bits

/-- Modelled from the spec: shapes of the "quantized weight triple" ("packed low-precision
data, per-group scale factors, per-group bias offsets") that the library's `quantize`, which
is not under the example's source, derives from a matrix `[r, c]`. Rows are split into groups
of `group_size` consecutive elements, each with one scale and one bias, and `32 / bits`
elements are packed per 32-bit word. The failures are the library errors the spec names
("invalid quantization parameters", "unsupported quantization group size"): parameters for
which groups or words are undefined raise `quantize_params`; an input that is not a matrix,
or whose rows do not split into whole groups and whole words, raises `quantize_shape`. -/
def quantizeShapes (s : List Nat) (group_size bits : Nat) :
    Except LibError (List Nat × List Nat × List Nat) :=
  if group_size = 0 ∨ bits = 0 ∨ 32 % bits ≠ 0 then .error .quantize_params
  else
    match s with
    | [r, c] =>
      if c % group_size = 0 ∧ c % elPerInt bits = 0 then
        .ok ([r, c / elPerInt bits], [r, c / group_size], [r, c / group_size])
      else .error .quantize_shape
    | _ => .error .quantize_shape

/-- Modelled from the spec: `quantize(w, group_size, bits)` of the tensor library (not under the
example's source): "deriving ... a quantized triple (packed data, scale, bias) via a
quantization operation". Returns the three handles in that order. -/
def quantize (a : Nat) (group_size bits : Nat) (w : World) :
    Except LibError ((Nat × Nat × Nat) × World) := do
  let sa ← w.shapeOf a
  let (sq, ss, sb) ← quantizeShapes sa group_size bits
  let (q, w) := w.push ⟨.quantize .data group_size bits, [a], sq⟩
  let (s, w) := w.push ⟨.quantize .scale group_size bits, [a], ss⟩
  let (b, w) := w.push ⟨.quantize .bias group_size bits, [a], sb⟩
  pure ((q, s, b), w)

/-- Modelled from the spec: result shape of the library's quantized multiply "taking (input,
data, scale, bias) and internally reconstructing the effective weight during the multiply".
The packed matrix `[wr, wc]` stands for a weight with `wc * (32 / bits)` columns; with
`transpose` the input is multiplied by the transpose of that weight, so the weight's columns
are the inner dimension and its rows the output dimension. Scale and bias must have one entry
per group of every row. -/
def quantizedMatmulShape (x q s b : List Nat) (transpose : Bool) (group_size bits : Nat) :
    Except LibError (List Nat) :=
  if group_size = 0 ∨ bits = 0 ∨ 32 % bits ≠ 0 then .error .quantize_params
  else
    match q with
    | [wr, wc] =>
      let cols := wc * elPerInt bits
      let inner := if transpose then cols else wr
      let outer := if transpose then wr else cols
      match x.getLast? with
      | some k =>
        if k = inner ∧ s = [wr, cols / group_size] ∧ b = [wr, cols / group_size] then
          .ok (x.dropLast ++ [outer])
        else .error .quantized_matmul_shape
      | none => .error .quantized_matmul_shape
    | _ => .error .quantized_matmul_shape

/-- Modelled from the spec: `quantized_matmul(x, w, scales, biases, transpose, group_size,
bits)` of the tensor library (not under the example's source). -/
def quantized_matmul (x q s b : Nat) (transpose : Bool) (group_size bits : Nat) (w : World) :
    Except LibError (Nat × World) := do
  let sx ← w.shapeOf x
  let sq ← w.shapeOf q
  let ss ← w.shapeOf s
  let sb ← w.shapeOf b
  let so ← quantizedMatmulShape sx sq ss sb transpose group_size bits
  pure (w.push ⟨.quantized_matmul transpose group_size bits, [x, q, s, b], so⟩)

/-- Nodes an evaluation has to compute: scanning handles from `n` downwards, a node is computed
when it is needed and not yet materialised, and then its inputs are needed too. Inputs are
older than the node that uses them, so one downward scan finds them all. The result is in
creation order. -/
def World.pending (w : World) : Nat → List Nat → List Nat
  | 0, _ => []
  | n + 1, need =>
    if n ∈ need ∧ n ∉ w.evaled then
      w.pending n (need ++ ((w.nodes[n]?).map Node.inputs).getD []) ++ [n]
    else w.pending n need

/-- The world after the nodes that `targets` depend on have been computed: they join the
materialised nodes and the call is logged with the nodes it computed. -/
def World.materialize (w : World) (targets : List Nat) : World :=
  { w with evaled := w.evaled ++ w.pending w.nodes.length targets,
           events := w.events ++ [.eval targets (w.pending w.nodes.length targets)] }

/-- Modelled from the spec: `eval(arrays)` of the tensor library, the "force-materialize (batch
of tensors)" operation: computes every node the targets depend on that is not materialised
yet, and records the call. -/
def eval (targets : List Nat) (w : World) : Except LibError (Unit × World) :=
  if targets.all (fun t => decide (t < w.nodes.length)) then .ok ((), w.materialize targets)
  else .error .invalid_handle

/-- Modelled from the spec: `array::item<float>()`, the "extraction of a scalar floating value
from a zero-dimensional tensor": the tensor must hold one element; it is materialised and its
value returned (here: the handle that carries the value). -/
def item (a : Nat) (w : World) : Except LibError (Nat × World) := do
  let sa ← w.shapeOf a
  if sa.prod = 1 then
    let ((), w) ← eval [a] w
    pure (a, w)
  else .error .item_size

/-- Modelled from the spec: `metal::start_capture(path)` of the tensor library's trace capture
surface; the call is recorded, file system failures are outside the model. -/
def metal.start_capture (path : String) (w : World) : Except LibError (Unit × World) :=
  .ok ((), { w with events := w.events ++ [.start_capture path] })

/-- Modelled from the spec: `metal::stop_capture()`. -/
def metal.stop_capture (w : World) : Except LibError (Unit × World) :=
  .ok ((), { w with events := w.events ++ [.stop_capture] })

/-- Writing one item to `std::cout`. -/
def World.print (w : World) (o : Out) : World :=
  { w with stdout := w.stdout ++ [o] }

end Library

/-! ## Program -/

section Program

/-- State of `class FeedForward`: the members `w1, w2, w3`. -/
structure FeedForward where
  w1 : Nat
  w2 : Nat
  w3 : Nat
  deriving DecidableEq, Repr

/-- The constructor `FeedForward(int dim, int hidden_dim)`: the member initialisers in
declaration order, then `eval({w1, w2, w3})`. -/
def FeedForward.new (dim hidden_dim : Nat) (w : World) :
    Except LibError (FeedForward × World) := do
  let (w1, w) ← random.normal [dim, hidden_dim] .float16 ⟨0, 1⟩ ⟨25, 4⟩ w
  let (w2, w) ← random.normal [hidden_dim, dim] .float16 ⟨0, 1⟩ ⟨25, 4⟩ w
  let (w3, w) ← random.normal [dim, hidden_dim] .float16 ⟨0, 1⟩ ⟨25, 4⟩ w
  let ((), w) ← eval [w1, w2, w3] w
  pure (⟨w1, w2, w3⟩, w)

/-- The method `FeedForward::forward(input)`. It is not `const`, so the object is returned
along with the result. -/
def FeedForward.forward (self : FeedForward) (input : Nat) (w : World) :
    Except LibError ((Nat × FeedForward) × World) := do
  let (x, w) ← matmul input self.w1 w
  let (sx, w) ← sigmoid x w
  let (g, w) ← multiply x sx w
  let (p, w) ← matmul input self.w3 w
  let (act, w) ← multiply g p w
  let (out, w) ← matmul act self.w2 w
  pure ((out, self), w)

/-- State of `class QuantizedFeedForward`: the member `layers`. -/
structure QuantizedFeedForward where
  layers : List Nat
  deriving DecidableEq, Repr

/-- The constructor `QuantizedFeedForward(int dim, int hidden_dim)`. `d` supplies the default
arguments of the three `quantize` calls. -/
def QuantizedFeedForward.new (d : QuantDefaults) (dim hidden_dim : Nat) (w : World) :
    Except LibError (QuantizedFeedForward × World) := do
  let (w1, w) ← random.normal [hidden_dim, dim] .float16 ⟨0, 1⟩ ⟨25, 4⟩ w
  let (w2, w) ← random.normal [dim, hidden_dim] .float16 ⟨0, 1⟩ ⟨25, 4⟩ w
  let (w3, w) ← random.normal [hidden_dim, dim] .float16 ⟨0, 1⟩ ⟨25, 4⟩ w
  let ((w1_q, w1_s, w1_b), w) ← quantize w1 d.group_size d.bits w
  let ((w2_q, w2_s, w2_b), w) ← quantize w2 d.group_size d.bits w
  let ((w3_q, w3_s, w3_b), w) ← quantize w3 d.group_size d.bits w
  let layers : List Nat := []
  let layers := layers ++ [w1_q]
  let layers := layers ++ [w1_s]
  let layers := layers ++ [w1_b]
  let layers := layers ++ [w2_q]
  let layers := layers ++ [w2_s]
  let layers := layers ++ [w2_b]
  let layers := layers ++ [w3_q]
  let layers := layers ++ [w3_s]
  let layers := layers ++ [w3_b]
  let ((), w) ← eval layers w
  pure (⟨layers⟩, w)

/-- Element access `layers[i]`; an index outside the vector has no defined value in the source
and is an `invalid_handle` here. -/
def QuantizedFeedForward.layer (self : QuantizedFeedForward) (i : Nat) : Except LibError Nat :=
  match self.layers[i]? with
  | some a => .ok a
  | none => .error .invalid_handle

/-- The method `QuantizedFeedForward::forward(input)`. `d` supplies the default arguments of
the three `quantized_matmul` calls. -/
def QuantizedFeedForward.forward (d : QuantDefaults) (self : QuantizedFeedForward)
    (input : Nat) (w : World) : Except LibError ((Nat × QuantizedFeedForward) × World) := do
  let l0 ← self.layer 0
  let l1 ← self.layer 1
  let l2 ← self.layer 2
  let (x, w) ← quantized_matmul input l0 l1 l2 d.transpose d.group_size d.bits w
  let (sx, w) ← sigmoid x w
  let (g, w) ← multiply x sx w
  let l6 ← self.layer 6
  let l7 ← self.layer 7
  let l8 ← self.layer 8
  let (p, w) ← quantized_matmul input l6 l7 l8 d.transpose d.group_size d.bits w
  let (act, w) ← multiply g p w
  let l3 ← self.layer 3
  let l4 ← self.layer 4
  let l5 ← self.layer 5
  let (out, w) ← quantized_matmul act l3 l4 l5 d.transpose d.group_size d.bits w
  pure ((out, self), w)

/-- Local variables of `main` that hold tensors or models, as they are when `main` returns. -/
structure MainLocals where
  input : Nat
  ff : FeedForward
  ffout : Nat
  qff : QuantizedFeedForward
  qffout : Nat
  diff : Nat
  deriving DecidableEq, Repr

/-- The function `main`. The unused locals `BATCH_SIZE` and `HEADS` are left out. -/
def main (d : QuantDefaults) (w : World) : Except LibError (MainLocals × World) := do
  let (input, w) ← random.normal [256, 4096] .float16 ⟨0, 1⟩ ⟨1, 1⟩ w
  let ((), w) ← eval [input] w
  let (ff, w) ← FeedForward.new 4096 14336 w
  let ((ffout, ff), w) ← ff.forward input w
  let (qff, w) ← QuantizedFeedForward.new d 4096 14336 w
  let ((qffout, qff), w) ← qff.forward d input w
  let ((), w) ← metal.start_capture "/Users/arpandhatt/Downloads/ff.gputrace" w
  let ((), w) ← eval [ffout] w
  let ((), w) ← metal.stop_capture w
  let ((), w) ← metal.start_capture "/Users/arpandhatt/Downloads/qff.gputrace" w
  let ((), w) ← eval [qffout] w
  let ((), w) ← metal.stop_capture w
  let (diff, w) ← subtract qffout ffout w
  let (m, w) ← mean diff w
  let (mv, w) ← item m w
  let w := w.print (.scalar mv)
  let w := w.print (.text " ")
  let (a, w) ← abs diff w
  let (mx, w) ← max a w
  let (mxv, w) ← item mx w
  let w := w.print (.scalar mxv)
  let w := w.print .endl
  pure (⟨input, ff, ffout, qff, qffout, diff⟩, w)

end Program

/-! ## Meaning of the graph -/

section Meaning

/-- An interpretation of the library's primitives as functions on some carrier `T` of tensor
values. Nothing is assumed about them: every statement about computed values holds for each
interpretation, the floating-point one of the library included. -/
structure Interp (T : Type) where
  dflt : T
  normal : Nat → Dtype → Dec → Dec → List Nat → T
  matmul : T → T → T
  multiply : T → T → T
  subtract : T → T → T
  sigmoid : T → T
  abs : T → T
  mean : T → T
  max : T → T
  quantize : QPart → Nat → Nat → T → T
  quantized_matmul : Bool → Nat → Nat → T → T → T → T → T

/-- Value of one node from the values of its inputs. -/
def Interp.apply {T : Type} (I : Interp T) (nd : Node) (args : List T) : T :=
  match nd.op, args with
  | .normal key dtype loc scale, [] => I.normal key dtype loc scale nd.shape
  | .matmul, [a, b] => I.matmul a b
  | .multiply, [a, b] => I.multiply a b
  | .subtract, [a, b] => I.subtract a b
  | .sigmoid, [a] => I.sigmoid a
  | .abs, [a] => I.abs a
  | .mean, [a] => I.mean a
  | .max, [a] => I.max a
  | .quantize part group_size bits, [a] => I.quantize part group_size bits a
  | .quantized_matmul transpose group_size bits, [x, q, s, b] =>
    I.quantized_matmul transpose group_size bits x q s b
  | _, _ => I.dflt

/-- Extend the list of values of the first nodes by the value of the next node. -/
def Interp.step {T : Type} (I : Interp T) (vals : List T) (nd : Node) : List T :=
  vals ++ [I.apply nd (nd.inputs.map (fun i => vals.getD i I.dflt))]

/-- Values of all nodes of a graph, in creation order. -/
def denote {T : Type} (I : Interp T) (nodes : List Node) : List T :=
  nodes.foldl I.step []

/-- Value of the tensor behind a handle. -/
def World.value {T : Type} (I : Interp T) (w : World) (a : Nat) : T :=
  (denote I w.nodes).getD a I.dflt

/-- The node behind a handle. -/
def World.node (w : World) (a : Nat) : Option Node := w.nodes[a]?

/-- Handles of the nodes created between two worlds of one run. -/
def createdBetween (w w' : World) : List Nat :=
  List.range' w.nodes.length (w'.nodes.length - w.nodes.length)

/-- Change of the capture depth caused by one call. -/
def Event.depthChange : Event → Int
  | .start_capture _ => 1
  | .stop_capture => -1
  | .eval _ _ => 0

/-- Capture depth after a sequence of calls: captures started minus captures stopped. -/
def captureDepth (es : List Event) : Int :=
  (es.map Event.depthChange).sum

/-- Whether a call is `start_capture`. -/
def Event.isStart : Event → Bool
  | .start_capture _ => true
  | _ => false

/-- Whether a call belongs to the trace capture surface. -/
def Event.isCapture : Event → Bool
  | .start_capture _ => true
  | .stop_capture => true
  | .eval _ _ => false

/-- Nodes materialised by the first `k` calls of a log. -/
def materializedBefore (es : List Event) (k : Nat) : List Nat :=
  (es.take k).foldl
    (fun acc e => match e with
      | .eval _ computed => acc ++ computed
      | _ => acc) []

/-- Default arguments for which the statements about `main` are made: the quantized weight is
multiplied transposed, the group size is 32, 64 or 128 and the element width 2, 4 or 8 bits
(nine combinations). -/
def QuantDefaults.supported (d : QuantDefaults) : Prop :=
  d.transpose = true ∧ d.group_size ∈ [32, 64, 128] ∧ d.bits ∈ [2, 4, 8]

instance (d : QuantDefaults) : Decidable d.supported := by
  unfold QuantDefaults.supported; infer_instance

/-- Terms over the library's primitives: the carrier of the free interpretation, in which the
value of a tensor is the expression that computes it. -/
inductive Term where
  | dflt
  | normal (key : Nat) (dtype : Dtype) (loc scale : Dec) (shape : List Nat)
  | matmul (a b : Term)
  | multiply (a b : Term)
  | subtract (a b : Term)
  | sigmoid (a : Term)
  | abs (a : Term)
  | mean (a : Term)
  | max (a : Term)
  | quantize (part : QPart) (group_size bits : Nat) (a : Term)
  | quantized_matmul (transpose : Bool) (group_size bits : Nat) (x q s b : Term)
  deriving DecidableEq, Repr

/-- The free interpretation. -/
def Interp.free : Interp Term :=
  ⟨.dflt, .normal, .matmul, .multiply, .subtract, .sigmoid, .abs, .mean, .max, .quantize,
    .quantized_matmul⟩

end Meaning

/-! ## Graphs the program builds

Closed forms of the nodes each part of the program appends; the lemmas below show that the
program builds exactly these. -/

section Graphs

/-- The world after `nds` have been appended to the graph. -/
def World.extend (w : World) (nds : List Node) : World :=
  { w with nodes := w.nodes ++ nds }

/-- The three weights the constructor of `FeedForward` samples, `keys` being the next key of
the global sequence. -/
def FeedForward.newNodes (dim hidden_dim keys : Nat) : List Node :=
  [⟨.normal keys .float16 ⟨0, 1⟩ ⟨25, 4⟩, [], [dim, hidden_dim]⟩,
   ⟨.normal (keys + 1) .float16 ⟨0, 1⟩ ⟨25, 4⟩, [], [hidden_dim, dim]⟩,
   ⟨.normal (keys + 2) .float16 ⟨0, 1⟩ ⟨25, 4⟩, [], [dim, hidden_dim]⟩]

/-- The six nodes one call of `FeedForward::forward` appends to a graph of `L` nodes. -/
def forwardNodes (ff : FeedForward) (input L : Nat) (s1 s6 : List Nat) : List Node :=
  [⟨.matmul, [input, ff.w1], s1⟩, ⟨.sigmoid, [L], s1⟩, ⟨.multiply, [L, L + 1], s1⟩,
   ⟨.matmul, [input, ff.w3], s1⟩, ⟨.multiply, [L + 2, L + 3], s1⟩,
   ⟨.matmul, [L + 4, ff.w2], s6⟩]

/-- The twelve nodes the constructor of `QuantizedFeedForward` appends to a graph of `L`
nodes: three sampled weights and the quantized triple of each (`t1` the shapes of the
triples of `w1` and `w3`, `t2` those of `w2`). -/
def QuantizedFeedForward.newNodes (d : QuantDefaults) (dim hidden_dim keys L : Nat)
    (t1 t2 : List Nat × List Nat × List Nat) : List Node :=
  [⟨.normal keys .float16 ⟨0, 1⟩ ⟨25, 4⟩, [], [hidden_dim, dim]⟩,
   ⟨.normal (keys + 1) .float16 ⟨0, 1⟩ ⟨25, 4⟩, [], [dim, hidden_dim]⟩,
   ⟨.normal (keys + 2) .float16 ⟨0, 1⟩ ⟨25, 4⟩, [], [hidden_dim, dim]⟩,
   ⟨.quantize .data d.group_size d.bits, [L], t1.1⟩,
   ⟨.quantize .scale d.group_size d.bits, [L], t1.2.1⟩,
   ⟨.quantize .bias d.group_size d.bits, [L], t1.2.2⟩,
   ⟨.quantize .data d.group_size d.bits, [L + 1], t2.1⟩,
   ⟨.quantize .scale d.group_size d.bits, [L + 1], t2.2.1⟩,
   ⟨.quantize .bias d.group_size d.bits, [L + 1], t2.2.2⟩,
   ⟨.quantize .data d.group_size d.bits, [L + 2], t1.1⟩,
   ⟨.quantize .scale d.group_size d.bits, [L + 2], t1.2.1⟩,
   ⟨.quantize .bias d.group_size d.bits, [L + 2], t1.2.2⟩]

/-- Handles of the nine tensors the constructor of `QuantizedFeedForward` retains. -/
def QuantizedFeedForward.newLayers (L : Nat) : List Nat :=
  [L + 3, L + 4, L + 5, L + 6, L + 7, L + 8, L + 9, L + 10, L + 11]

/-- Shapes of the quantized triple of a matrix `[r, c]`. -/
def tripleShapes (d : QuantDefaults) (r c : Nat) : List Nat × List Nat × List Nat :=
  ([r, c / elPerInt d.bits], [r, c / d.group_size], [r, c / d.group_size])

/-- The six nodes one call of `QuantizedFeedForward::forward` appends to a graph of `L`
nodes, for an object holding the nine handles `l0 .. l8`. -/
def quantizedForwardNodes (d : QuantDefaults) (l0 l1 l2 l3 l4 l5 l6 l7 l8 input L : Nat)
    (s1 s6 : List Nat) : List Node :=
  [⟨.quantized_matmul d.transpose d.group_size d.bits, [input, l0, l1, l2], s1⟩,
   ⟨.sigmoid, [L], s1⟩, ⟨.multiply, [L, L + 1], s1⟩,
   ⟨.quantized_matmul d.transpose d.group_size d.bits, [input, l6, l7, l8], s1⟩,
   ⟨.multiply, [L + 2, L + 3], s1⟩,
   ⟨.quantized_matmul d.transpose d.group_size d.bits, [L + 4, l3, l4, l5], s6⟩]

/-- The graph `main` has built when it returns: the input, the weights and the forward pass
of the dense model, the weights, triples and forward pass of the quantized model, and the
four nodes of the comparison. -/
def mainNodes (d : QuantDefaults) : List Node :=
  [⟨.normal 0 .float16 ⟨0, 1⟩ ⟨1, 1⟩, [], [256, 4096]⟩] ++
  FeedForward.newNodes 4096 14336 1 ++
  forwardNodes ⟨1, 2, 3⟩ 0 4 [256, 14336] [256, 4096] ++
  QuantizedFeedForward.newNodes d 4096 14336 4 10
    (tripleShapes d 14336 4096) (tripleShapes d 4096 14336) ++
  quantizedForwardNodes d 13 14 15 16 17 18 19 20 21 0 22 [256, 14336] [256, 4096] ++
  [⟨.subtract, [27, 9], [256, 4096]⟩, ⟨.mean, [28], []⟩, ⟨.abs, [28], [256, 4096]⟩,
   ⟨.max, [30], []⟩]

/-- The calls `main` has logged when it returns. -/
def mainEvents : List Event :=
  [.eval [0] [0], .eval [1, 2, 3] [1, 2, 3],
   .eval [13, 14, 15, 16, 17, 18, 19, 20, 21] [10, 11, 12, 13, 14, 15, 16, 17, 18, 19, 20, 21],
   .start_capture "/Users/arpandhatt/Downloads/ff.gputrace",
   .eval [9] [4, 5, 6, 7, 8, 9],
   .stop_capture,
   .start_capture "/Users/arpandhatt/Downloads/qff.gputrace",
   .eval [27] [22, 23, 24, 25, 26, 27],
   .stop_capture,
   .eval [29] [28, 29],
   .eval [31] [30, 31]]

/-- The world in which `main` returns. -/
def mainWorld (d : QuantDefaults) : World :=
  ⟨mainNodes d,
   [0, 1, 2, 3, 10, 11, 12, 13, 14, 15, 16, 17, 18, 19, 20, 21, 4, 5, 6, 7, 8, 9, 22, 23, 24,
    25, 26, 27, 28, 29, 30, 31],
   7, mainEvents, [.scalar 29, .text " ", .scalar 31, .endl]⟩

/-- The tensor locals of `main` when it returns. -/
def mainLocals : MainLocals :=
  ⟨0, ⟨1, 2, 3⟩, 9, ⟨[13, 14, 15, 16, 17, 18, 19, 20, 21]⟩, 27, 28⟩

/-- Whether a run returned the given value and world. -/
def returns {α : Type} [DecidableEq α] (r : Except LibError (α × World)) (a : α) (w : World) :
    Bool :=
  match r with
  | .ok (a', w') => decide (a' = a ∧ w' = w)
  | .error _ => false

/-- The world a run ends in (the fresh world if the run raised). -/
def World.after {α : Type} (r : Except LibError (α × World)) : World :=
  match r with
  | .ok (_, w) => w
  | .error _ => World.init

/-- A small world for examples: an input of shape `[1, 64]` that has been materialised. -/
def sampleWorld : World :=
  ⟨[⟨.normal 0 .float16 ⟨0, 1⟩ ⟨1, 1⟩, [], [1, 64]⟩], [0], 1, [.eval [0] [0]], []⟩

/-- The library defaults used in the examples: groups of 64 elements of 4 bits, weight
multiplied transposed. -/
def sampleDefaults : QuantDefaults := ⟨64, 4, true⟩

/-- The example world after `FeedForward(64, 128)` has been constructed. -/
def sampleDense : World := World.after (FeedForward.new 64 128 sampleWorld)

/-- The example world after `forward` of that object on the input. -/
def sampleDenseOut : World := World.after (FeedForward.forward ⟨1, 2, 3⟩ 0 sampleDense)

/-- The example world after `QuantizedFeedForward(64, 128)` has been constructed. -/
def sampleQuantized : World :=
  World.after (QuantizedFeedForward.new sampleDefaults 64 128 sampleWorld)

/-- The example world after `forward` of that object on the input. -/
def sampleQuantizedOut : World :=
  World.after (QuantizedFeedForward.forward sampleDefaults ⟨[4, 5, 6, 7, 8, 9, 10, 11, 12]⟩ 0
    sampleQuantized)

end Graphs

/-! ## Lemmas about the library and the graph -/

section Lemmas

theorem getElem?_append_length_add {α : Type} (l l' : List α) (k : Nat) :
    (l ++ l')[l.length + k]? = l'[k]? := by
  rw [List.getElem?_append_right (Nat.le_add_right _ _)]
  simp

theorem bind_eq_ok {ε α β : Type} (x : Except ε α) (f : α → Except ε β) (b : β) :
    (x >>= f) = .ok b ↔ ∃ a, x = .ok a ∧ f a = .ok b := by
  cases x <;> simp [bind, Except.bind]

theorem shapeOf_eq_ok (w : World) (a : Nat) (s : List Nat) :
    w.shapeOf a = .ok s ↔ ∃ nd, w.nodes[a]? = some nd ∧ nd.shape = s := by
  unfold World.shapeOf
  cases h : w.nodes[a]? <;> simp

theorem shapeOf_mono {w w' : World} (h : w.nodes <+: w'.nodes) {a : Nat} {s : List Nat}
    (ha : w.shapeOf a = .ok s) : w'.shapeOf a = .ok s := by
  rw [shapeOf_eq_ok] at ha ⊢
  obtain ⟨nd, h1, h2⟩ := ha
  obtain ⟨t, ht⟩ := h
  refine ⟨nd, ?_, h2⟩
  rw [← ht]
  have hlt : a < w.nodes.length := by
    rw [List.getElem?_eq_some_iff] at h1
    exact h1.1
  rw [List.getElem?_append_left hlt]
  exact h1

theorem matmul_eq_ok (w : World) (a b : Nat) (r : Nat × World) :
    matmul a b w = .ok r ↔ ∃ sa sb s, w.shapeOf a = .ok sa ∧ w.shapeOf b = .ok sb ∧
      matmulShape sa sb = .ok s ∧ r = w.push ⟨.matmul, [a, b], s⟩ := by
  unfold matmul
  simp only [bind_eq_ok, pure, Except.pure, Except.ok.injEq]
  constructor
  · rintro ⟨sa, ha, sb, hb, s, hs, h⟩
    exact ⟨sa, sb, s, ha, hb, hs, h.symm⟩
  · rintro ⟨sa, sb, s, ha, hb, hs, h⟩
    exact ⟨sa, ha, sb, hb, s, hs, h.symm⟩

theorem elementwise_eq_ok (op : Op) (w : World) (a b : Nat) (r : Nat × World) :
    elementwise op a b w = .ok r ↔ ∃ s, w.shapeOf a = .ok s ∧ w.shapeOf b = .ok s ∧
      r = w.push ⟨op, [a, b], s⟩ := by
  unfold elementwise
  simp only [bind_eq_ok]
  constructor
  · rintro ⟨sa, ha, sb, hb, h⟩
    split at h
    · rename_i heq
      subst heq
      simp only [pure, Except.pure, Except.ok.injEq] at h
      exact ⟨sa, ha, hb, h.symm⟩
    · cases h
  · rintro ⟨s, ha, hb, h⟩
    refine ⟨s, ha, s, hb, ?_⟩
    simp [h, pure, Except.pure]

theorem unary_eq_ok (op : Op) (w : World) (a : Nat) (r : Nat × World) :
    unary op a w = .ok r ↔ ∃ s, w.shapeOf a = .ok s ∧ r = w.push ⟨op, [a], s⟩ := by
  unfold unary
  simp only [bind_eq_ok, pure, Except.pure, Except.ok.injEq]
  constructor
  · rintro ⟨s, ha, h⟩
    exact ⟨s, ha, h.symm⟩
  · rintro ⟨s, ha, h⟩
    exact ⟨s, ha, h.symm⟩

theorem push_eq (w : World) (nd : Node) : w.push nd = (w.nodes.length, w.extend [nd]) := rfl

theorem extend_extend (w : World) (a b : List Node) :
    (w.extend a).extend b = w.extend (a ++ b) := by
  simp [World.extend]

theorem extend_nodes_length (w : World) (a : List Node) :
    (w.extend a).nodes.length = w.nodes.length + a.length := by
  simp [World.extend]

theorem lt_of_shapeOf {w : World} {a : Nat} {s : List Nat} (h : w.shapeOf a = .ok s) :
    a < w.nodes.length := by
  rw [shapeOf_eq_ok] at h
  obtain ⟨nd, h1, -⟩ := h
  rw [List.getElem?_eq_some_iff] at h1
  exact h1.1

theorem shapeOf_extend (w : World) (nds : List Node) (a : Nat) :
    (w.extend nds).shapeOf a =
      if a < w.nodes.length then w.shapeOf a
      else match nds[a - w.nodes.length]? with
        | some nd => .ok nd.shape
        | none => .error .invalid_handle := by
  by_cases h : a < w.nodes.length
  · simp only [h, if_true, World.extend, World.shapeOf]
    rw [List.getElem?_append_left h]
  · simp only [h, if_false, World.extend, World.shapeOf]
    rw [List.getElem?_append_right (Nat.le_of_not_lt h)]

theorem forward_eq_ok (ff : FeedForward) (input : Nat) (w : World)
    (b2 : ff.w2 < w.nodes.length) (b3 : ff.w3 < w.nodes.length)
    (r : (Nat × FeedForward) × World) :
    ff.forward input w = .ok r ↔
      ∃ si sw1 sw2 sw3 s1 s6, w.shapeOf input = .ok si ∧ w.shapeOf ff.w1 = .ok sw1 ∧
        w.shapeOf ff.w2 = .ok sw2 ∧ w.shapeOf ff.w3 = .ok sw3 ∧
        matmulShape si sw1 = .ok s1 ∧ matmulShape si sw3 = .ok s1 ∧
        matmulShape s1 sw2 = .ok s6 ∧
        r = ((w.nodes.length + 5, ff),
              w.extend (forwardNodes ff input w.nodes.length s1 s6)) := by
  unfold FeedForward.forward multiply sigmoid
  simp only [bind_eq_ok, matmul_eq_ok, elementwise_eq_ok, unary_eq_ok, push_eq, pure,
    Except.pure, Except.ok.injEq]
  constructor
  · rintro ⟨_, ⟨si, sw1, s1, hi, hw1, hm1, rfl⟩, _, ⟨s2, h2, rfl⟩, _, ⟨s3, h3a, h3b, rfl⟩, _,
      ⟨si', sw3, s4, hi', hw3, hm4, rfl⟩, _, ⟨s5, h5a, h5b, rfl⟩, _,
      ⟨s5', sw2, s6, h6a, hw2, hm6, rfl⟩, rfl⟩
    have bi := lt_of_shapeOf hi
    simp [extend_extend, extend_nodes_length, shapeOf_extend, bi, b2, b3]
      at h2 h3a h3b hi' hw3 h5a h5b h6a hw2
    subst h2 h3a h5a h5b h6a
    have hsi : si' = si := by
      rw [hi] at hi'
      exact (Except.ok.inj hi').symm
    subst hsi
    refine ⟨_, _, _, _, _, _, hi, hw1, hw2, hw3, hm1, hm4, hm6, ?_⟩
    simp [extend_extend, extend_nodes_length, forwardNodes]
  · rintro ⟨si, sw1, sw2, sw3, s1, s6, hi, hw1, hw2, hw3, hm1, hm3, hm2, rfl⟩
    have bi := lt_of_shapeOf hi
    refine ⟨_, ⟨si, sw1, s1, hi, hw1, hm1, rfl⟩, _, ⟨s1, ?_, rfl⟩, _, ⟨s1, ?_, ?_, rfl⟩, _,
      ⟨si, sw3, s1, ?_, ?_, hm3, rfl⟩, _, ⟨s1, ?_, ?_, rfl⟩, _,
      ⟨s1, sw2, s6, ?_, ?_, hm2, rfl⟩, ?_⟩ <;>
    simp [extend_extend, extend_nodes_length, shapeOf_extend, bi, b2, b3, hi, hw2, hw3,
      forwardNodes]

theorem length_foldl_step {T : Type} (I : Interp T) (l : List Node) (acc : List T) :
    (l.foldl I.step acc).length = acc.length + l.length := by
  induction l generalizing acc with
  | nil => simp
  | cons nd l ih =>
    simp only [List.foldl_cons, ih, Interp.step, List.length_append, List.length_cons,
      List.length_nil]
    omega

theorem length_denote {T : Type} (I : Interp T) (l : List Node) :
    (denote I l).length = l.length := by
  simp [denote, length_foldl_step]

theorem getD_foldl_step {T : Type} (I : Interp T) (l : List Node) (acc : List T) (a : Nat)
    (h : a < acc.length) : (l.foldl I.step acc).getD a I.dflt = acc.getD a I.dflt := by
  induction l generalizing acc with
  | nil => rfl
  | cons nd l ih =>
    rw [List.foldl_cons, ih]
    · simp only [Interp.step, List.getD_eq_getElem?_getD]
      rw [List.getElem?_append_left h]
    · simp only [Interp.step, List.length_append, List.length_cons, List.length_nil]
      omega

theorem getD_denote_append {T : Type} (I : Interp T) (l1 l2 : List Node) (a : Nat)
    (h : a < l1.length) :
    (denote I (l1 ++ l2)).getD a I.dflt = (denote I l1).getD a I.dflt := by
  unfold denote
  rw [List.foldl_append]
  exact getD_foldl_step I l2 _ a (by rw [← denote, length_denote]; exact h)

/-- Values of old handles do not change when the graph grows. -/
theorem value_mono {T : Type} (I : Interp T) {w w' : World} (h : w.nodes <+: w'.nodes)
    {a : Nat} (ha : a < w.nodes.length) : w'.value I a = w.value I a := by
  obtain ⟨t, ht⟩ := h
  unfold World.value
  rw [← ht]
  exact getD_denote_append I _ _ a ha

/-- The value of a node is its primitive applied to the values of its inputs, provided the
inputs are older than the node. -/
theorem value_eq_apply {T : Type} (I : Interp T) (w : World) (a : Nat) (nd : Node)
    (h : w.nodes[a]? = some nd) (hin : ∀ i ∈ nd.inputs, i < a) :
    w.value I a = I.apply nd (nd.inputs.map (w.value I)) := by
  rw [List.getElem?_eq_some_iff] at h
  obtain ⟨hlt, hnd⟩ := h
  have hsplit : w.nodes = w.nodes.take a ++ nd :: w.nodes.drop (a + 1) := by
    rw [← hnd]
    simp
  have hlen : (w.nodes.take a).length = a := by
    simp [List.length_take, Nat.min_eq_left (Nat.le_of_lt hlt)]
  have hval : ∀ i, i < a →
      w.value I i = (denote I (w.nodes.take a)).getD i I.dflt := by
    intro i hi
    unfold World.value
    conv_lhs => rw [hsplit]
    exact getD_denote_append I _ _ i (by rw [hlen]; exact hi)
  have hmap : nd.inputs.map (w.value I) =
      nd.inputs.map (fun i => (denote I (w.nodes.take a)).getD i I.dflt) :=
    List.map_congr_left (fun i hi => hval i (hin i hi))
  rw [hmap]
  unfold World.value
  conv_lhs => rw [hsplit]
  have : w.nodes.take a ++ nd :: w.nodes.drop (a + 1)
      = (w.nodes.take a ++ [nd]) ++ w.nodes.drop (a + 1) := by simp
  rw [this, getD_denote_append I _ _ a (by simp [hlen])]
  unfold denote
  rw [List.foldl_append]
  simp only [List.foldl_cons, List.foldl_nil, Interp.step, List.getD_eq_getElem?_getD]
  have hl : (List.foldl I.step [] (w.nodes.take a)).length = a := by
    rw [← denote, length_denote, hlen]
  rw [List.getElem?_append_right (by rw [hl])]
  simp [hl]

theorem extend_getElem (w : World) (nds : List Node) (k : Nat) :
    (w.extend nds).nodes[w.nodes.length + k]? = nds[k]? := by
  simp only [World.extend]
  rw [List.getElem?_append_right (Nat.le_add_right _ _)]
  simp

theorem nodes_extend (w : World) (nds : List Node) : w.nodes <+: (w.extend nds).nodes :=
  ⟨nds, rfl⟩

theorem quantized_matmul_eq_ok (w : World) (x q s b : Nat) (t : Bool) (g bits : Nat)
    (r : Nat × World) :
    quantized_matmul x q s b t g bits w = .ok r ↔ ∃ sx sq ss sb so, w.shapeOf x = .ok sx ∧
      w.shapeOf q = .ok sq ∧ w.shapeOf s = .ok ss ∧ w.shapeOf b = .ok sb ∧
      quantizedMatmulShape sx sq ss sb t g bits = .ok so ∧
      r = w.push ⟨.quantized_matmul t g bits, [x, q, s, b], so⟩ := by
  unfold quantized_matmul
  simp only [bind_eq_ok, pure, Except.pure, Except.ok.injEq]
  constructor
  · rintro ⟨sx, hx, sq, hq, ss, hs, sb, hb, so, ho, h⟩
    exact ⟨sx, sq, ss, sb, so, hx, hq, hs, hb, ho, h.symm⟩
  · rintro ⟨sx, sq, ss, sb, so, hx, hq, hs, hb, ho, h⟩
    exact ⟨sx, hx, sq, hq, ss, hs, sb, hb, so, ho, h.symm⟩

theorem FeedForward_new_eq (dim hid : Nat) (w : World) :
    FeedForward.new dim hid w = .ok (⟨w.nodes.length, w.nodes.length + 1, w.nodes.length + 2⟩,
      World.materialize
        { w with nodes := w.nodes ++ FeedForward.newNodes dim hid w.keys, keys := w.keys + 3 }
        [w.nodes.length, w.nodes.length + 1, w.nodes.length + 2]) := by
  simp [FeedForward.new, random.normal, World.push, eval, bind, Except.bind, pure,
    Except.pure, FeedForward.newNodes]

theorem shapeOf_mk_add (ns nds : List Node) (ev : List Nat) (k : Nat) (es : List Event)
    (so : List Out) (j : Nat) :
    World.shapeOf ⟨ns ++ nds, ev, k, es, so⟩ (ns.length + j) =
      match nds[j]? with
      | some nd => .ok nd.shape
      | none => .error .invalid_handle := by
  simp only [World.shapeOf, getElem?_append_length_add]

theorem shapeOf_mk_zero (ns nds : List Node) (ev : List Nat) (k : Nat) (es : List Event)
    (so : List Out) :
    World.shapeOf ⟨ns ++ nds, ev, k, es, so⟩ ns.length =
      match nds[0]? with
      | some nd => .ok nd.shape
      | none => .error .invalid_handle :=
  shapeOf_mk_add ns nds ev k es so 0

theorem quantize_eq (a g bits : Nat) (w : World) :
    quantize a g bits w = (w.shapeOf a).bind fun sa =>
      (quantizeShapes sa g bits).bind fun t =>
        .ok ((w.nodes.length, w.nodes.length + 1, w.nodes.length + 2),
          { w with nodes := w.nodes ++ [⟨.quantize .data g bits, [a], t.1⟩,
            ⟨.quantize .scale g bits, [a], t.2.1⟩, ⟨.quantize .bias g bits, [a], t.2.2⟩] }) := by
  unfold quantize
  simp only [bind, World.push, List.append_assoc, List.cons_append, List.nil_append,
    List.length_append, List.length_cons, List.length_nil, pure, Except.pure]

theorem QuantizedFeedForward_new_eq (d : QuantDefaults) (dim hid : Nat) (w : World) :
    QuantizedFeedForward.new d dim hid w =
      match quantizeShapes [hid, dim] d.group_size d.bits,
        quantizeShapes [dim, hid] d.group_size d.bits with
      | .ok t1, .ok t2 =>
        .ok (⟨QuantizedFeedForward.newLayers w.nodes.length⟩,
          World.materialize
            { w with nodes := w.nodes ++
                       QuantizedFeedForward.newNodes d dim hid w.keys w.nodes.length t1 t2,
                     keys := w.keys + 3 }
            (QuantizedFeedForward.newLayers w.nodes.length))
      | .error e, _ => .error e
      | .ok _, .error e => .error e := by
  obtain ⟨ns, ev, k, es, so⟩ := w
  unfold QuantizedFeedForward.new
  rcases h1 : quantizeShapes [hid, dim] d.group_size d.bits with e1 | ⟨q1, s1, b1⟩
  · simp [random.normal, World.push, quantize_eq, bind, Except.bind,
      shapeOf_mk_add, shapeOf_mk_zero, Nat.add_assoc, h1]
  · rcases h2 : quantizeShapes [dim, hid] d.group_size d.bits with e2 | ⟨q2, s2, b2⟩
    · simp [random.normal, World.push, quantize_eq, bind, Except.bind,
        shapeOf_mk_add, shapeOf_mk_zero, Nat.add_assoc, h1, h2]
    · simp [random.normal, World.push, quantize_eq, bind, Except.bind,
        shapeOf_mk_add, shapeOf_mk_zero, Nat.add_assoc, h1, h2, eval, pure, Except.pure,
        QuantizedFeedForward.newNodes, QuantizedFeedForward.newLayers]

theorem quantized_forward_eq_ok (d : QuantDefaults) (l0 l1 l2 l3 l4 l5 l6 l7 l8 input : Nat)
    (w : World) (b3 : l3 < w.nodes.length) (b4 : l4 < w.nodes.length)
    (b5 : l5 < w.nodes.length) (b6 : l6 < w.nodes.length) (b7 : l7 < w.nodes.length)
    (b8 : l8 < w.nodes.length) (r : (Nat × QuantizedFeedForward) × World) :
    QuantizedFeedForward.forward d ⟨[l0, l1, l2, l3, l4, l5, l6, l7, l8]⟩ input w = .ok r ↔
      ∃ si a0 a1 a2 a3 a4 a5 a6 a7 a8 s1 s6, w.shapeOf input = .ok si ∧
        w.shapeOf l0 = .ok a0 ∧ w.shapeOf l1 = .ok a1 ∧ w.shapeOf l2 = .ok a2 ∧
        w.shapeOf l3 = .ok a3 ∧ w.shapeOf l4 = .ok a4 ∧ w.shapeOf l5 = .ok a5 ∧
        w.shapeOf l6 = .ok a6 ∧ w.shapeOf l7 = .ok a7 ∧ w.shapeOf l8 = .ok a8 ∧
        quantizedMatmulShape si a0 a1 a2 d.transpose d.group_size d.bits = .ok s1 ∧
        quantizedMatmulShape si a6 a7 a8 d.transpose d.group_size d.bits = .ok s1 ∧
        quantizedMatmulShape s1 a3 a4 a5 d.transpose d.group_size d.bits = .ok s6 ∧
        r = ((w.nodes.length + 5, ⟨[l0, l1, l2, l3, l4, l5, l6, l7, l8]⟩),
              w.extend (quantizedForwardNodes d l0 l1 l2 l3 l4 l5 l6 l7 l8 input
                w.nodes.length s1 s6)) := by
  unfold QuantizedFeedForward.forward multiply sigmoid
  simp only [bind_eq_ok, quantized_matmul_eq_ok, elementwise_eq_ok, unary_eq_ok, push_eq, pure,
    Except.pure, Except.ok.injEq, QuantizedFeedForward.layer, List.getElem?_cons_succ,
    List.getElem?_cons_zero, exists_eq_left']
  constructor
  · rintro ⟨_, ⟨si, a0, a1, a2, s1, hi, h0, h1, h2, hm1, rfl⟩, _, ⟨s2, hs2, rfl⟩, _,
      ⟨s3, h3a, h3b, rfl⟩, _, ⟨si', a6, a7, a8, s4, hi', h6, h7, h8, hm4, rfl⟩, _,
      ⟨s5, h5a, h5b, rfl⟩, _, ⟨s5', a3, a4, a5, s6, h6a, h3, h4, h5, hm6, rfl⟩, rfl⟩
    have bi := lt_of_shapeOf hi
    simp [extend_extend, extend_nodes_length, shapeOf_extend, bi, b3, b4, b5, b6, b7, b8]
      at hs2 h3a h3b hi' h6 h7 h8 h5a h5b h6a h3 h4 h5
    subst hs2 h3a h5a h5b h6a
    have hsi : si' = si := by
      rw [hi] at hi'
      exact (Except.ok.inj hi').symm
    subst hsi
    refine ⟨_, _, _, _, _, _, _, _, _, _, _, _, hi, h0, h1, h2, h3, h4, h5, h6, h7, h8, hm1,
      hm4, hm6, ?_⟩
    simp [extend_extend, extend_nodes_length, quantizedForwardNodes]
  · rintro ⟨si, a0, a1, a2, a3, a4, a5, a6, a7, a8, s1, s6, hi, h0, h1, h2, h3, h4, h5, h6, h7,
      h8, hm1, hm3, hm2, rfl⟩
    have bi := lt_of_shapeOf hi
    refine ⟨_, ⟨si, a0, a1, a2, s1, hi, h0, h1, h2, hm1, rfl⟩, _, ⟨s1, ?_, rfl⟩, _,
      ⟨s1, ?_, ?_, rfl⟩, _, ⟨si, a6, a7, a8, s1, ?_, ?_, ?_, ?_, hm3, rfl⟩, _,
      ⟨s1, ?_, ?_, rfl⟩, _, ⟨s1, a3, a4, a5, s6, ?_, ?_, ?_, ?_, hm2, rfl⟩, ?_⟩ <;>
    simp [extend_extend, extend_nodes_length, shapeOf_extend, bi, b3, b4, b5, b6, b7, b8, hi,
      h3, h4, h5, h6, h7, h8, quantizedForwardNodes]

theorem materialize_nodes (w : World) (targets : List Nat) :
    (w.materialize targets).nodes = w.nodes := rfl

theorem shapeOf_append_add (w : World) (ns nds : List Node) (h : w.nodes = ns ++ nds)
    (j : Nat) :
    w.shapeOf (ns.length + j) =
      match nds[j]? with
      | some nd => .ok nd.shape
      | none => .error .invalid_handle := by
  simp only [World.shapeOf, h, getElem?_append_length_add]

theorem matmulShape_matrix (n k m : Nat) : matmulShape [n, k] [k, m] = .ok [n, m] := by
  simp [matmulShape]

theorem supported_cases {d : QuantDefaults} (hs : d.supported) :
    d = ⟨32, 2, true⟩ ∨ d = ⟨32, 4, true⟩ ∨ d = ⟨32, 8, true⟩ ∨
    d = ⟨64, 2, true⟩ ∨ d = ⟨64, 4, true⟩ ∨ d = ⟨64, 8, true⟩ ∨
    d = ⟨128, 2, true⟩ ∨ d = ⟨128, 4, true⟩ ∨ d = ⟨128, 8, true⟩ := by
  obtain ⟨g, b, t⟩ := d
  obtain ⟨ht, hg, hb⟩ := hs
  simp only [List.mem_cons, List.mem_singleton, List.not_mem_nil, or_false] at hg hb
  simp only at ht
  subst ht
  rcases hg with rfl | rfl | rfl <;> rcases hb with rfl | rfl | rfl <;> simp

theorem supported_facts {d : QuantDefaults} (hs : d.supported) :
    d.transpose = true ∧ 0 < d.group_size ∧ 0 < d.bits ∧ 32 % d.bits = 0 ∧
      0 < elPerInt d.bits ∧ elPerInt d.bits ∣ d.group_size := by
  rcases supported_cases hs with h | h | h | h | h | h | h | h | h <;> subst h <;>
    simp [elPerInt] <;> decide

theorem quantizeShapes_ok (d : QuantDefaults) (hs : d.supported) (r c : Nat)
    (hc : d.group_size ∣ c) :
    quantizeShapes [r, c] d.group_size d.bits = .ok (tripleShapes d r c) := by
  obtain ⟨-, hg, hb, hb32, -, he⟩ := supported_facts hs
  have h1 : c % d.group_size = 0 := Nat.mod_eq_zero_of_dvd hc
  have h2 : c % elPerInt d.bits = 0 := Nat.mod_eq_zero_of_dvd (dvd_trans he hc)
  simp [quantizeShapes, tripleShapes, h1, h2, hb32, Nat.pos_iff_ne_zero.mp hg,
    Nat.pos_iff_ne_zero.mp hb]

theorem quantizedMatmulShape_ok (d : QuantDefaults) (hs : d.supported) (n r c : Nat)
    (hc : d.group_size ∣ c) :
    quantizedMatmulShape [n, c] (tripleShapes d r c).1 (tripleShapes d r c).2.1
      (tripleShapes d r c).2.2 d.transpose d.group_size d.bits = .ok [n, r] := by
  obtain ⟨ht, hg, hb, hb32, -, he⟩ := supported_facts hs
  have h2 : c / elPerInt d.bits * elPerInt d.bits = c :=
    Nat.div_mul_cancel (dvd_trans he hc)
  simp [quantizedMatmulShape, tripleShapes, h2, hb32, Nat.pos_iff_ne_zero.mp hg,
    Nat.pos_iff_ne_zero.mp hb, ht]

theorem forward_value_aux {T : Type} (I : Interp T) (ff ff' : FeedForward)
    (input out : Nat) (w w' : World)
    (hw1 : ff.w1 < w.nodes.length) (hw2 : ff.w2 < w.nodes.length)
    (hw3 : ff.w3 < w.nodes.length)
    (h : ff.forward input w = .ok ((out, ff'), w')) :
    let x := I.matmul (w.value I input) (w.value I ff.w1)
    let act := I.multiply (I.multiply x (I.sigmoid x))
      (I.matmul (w.value I input) (w.value I ff.w3))
    w'.value I out = I.matmul act (w.value I ff.w2) := by
  rw [forward_eq_ok ff input w hw2 hw3] at h
  obtain ⟨si, sw1, sw2, sw3, s1, s6, hi, -, -, -, -, -, -, hr⟩ := h
  have bi := lt_of_shapeOf hi
  simp only [Prod.mk.injEq] at hr
  obtain ⟨⟨h1, -⟩, h3⟩ := hr
  intro x act
  rw [h1, h3]
  have hp := nodes_extend w (forwardNodes ff input w.nodes.length s1 s6)
  have e := extend_getElem w (forwardNodes ff input w.nodes.length s1 s6)
  generalize hW : w.extend (forwardNodes ff input w.nodes.length s1 s6) = W at hp e
  have v0 : W.value I (w.nodes.length + 0) = I.matmul (W.value I input) (W.value I ff.w1) :=
    value_eq_apply I W _ ⟨.matmul, [input, ff.w1], s1⟩ (by rw [e]; rfl)
      (by simp; omega)
  have v1 : W.value I (w.nodes.length + 1) = I.sigmoid (W.value I (w.nodes.length + 0)) :=
    value_eq_apply I W _ ⟨.sigmoid, [w.nodes.length], s1⟩ (by rw [e]; rfl) (by simp)
  have v2 : W.value I (w.nodes.length + 2) =
      I.multiply (W.value I (w.nodes.length + 0)) (W.value I (w.nodes.length + 1)) :=
    value_eq_apply I W _ ⟨.multiply, [w.nodes.length, w.nodes.length + 1], s1⟩
      (by rw [e]; rfl) (by simp)
  have v3 : W.value I (w.nodes.length + 3) = I.matmul (W.value I input) (W.value I ff.w3) :=
    value_eq_apply I W _ ⟨.matmul, [input, ff.w3], s1⟩ (by rw [e]; rfl) (by simp; omega)
  have v4 : W.value I (w.nodes.length + 4) =
      I.multiply (W.value I (w.nodes.length + 2)) (W.value I (w.nodes.length + 3)) :=
    value_eq_apply I W _ ⟨.multiply, [w.nodes.length + 2, w.nodes.length + 3], s1⟩
      (by rw [e]; rfl) (by simp)
  have v5 : W.value I (w.nodes.length + 5) =
      I.matmul (W.value I (w.nodes.length + 4)) (W.value I ff.w2) :=
    value_eq_apply I W _ ⟨.matmul, [w.nodes.length + 4, ff.w2], s6⟩ (by rw [e]; rfl)
      (by simp; omega)
  rw [v5, v4, v3, v2, v1, v0, value_mono I hp bi, value_mono I hp hw1, value_mono I hp hw2,
    value_mono I hp hw3]

theorem getElem_of_extends {ns nds : List Node} {w : World} (hp : ns ++ nds <+: w.nodes)
    (j : Nat) (nd : Node) (h : nds[j]? = some nd) : w.nodes[ns.length + j]? = some nd := by
  obtain ⟨t, ht⟩ := hp
  have hj : j < nds.length := (List.getElem?_eq_some_iff.mp h).1
  rw [← ht, List.getElem?_append_left (by simp; omega), getElem?_append_length_add]
  exact h

/-- Values of the nine tensors retained by the constructor of `QuantizedFeedForward`, in any
world that extends the graph it built: each is one part of the quantized triple of one of
the three weights sampled by the constructor. -/
theorem quantized_layer_values {T : Type} (I : Interp T) (d : QuantDefaults)
    (dim hid keys : Nat) (ns : List Node) (t1 t2 : List Nat × List Nat × List Nat) (w : World)
    (hp : ns ++ QuantizedFeedForward.newNodes d dim hid keys ns.length t1 t2 <+: w.nodes) :
    let W1 := I.normal keys .float16 ⟨0, 1⟩ ⟨25, 4⟩ [hid, dim]
    let W2 := I.normal (keys + 1) .float16 ⟨0, 1⟩ ⟨25, 4⟩ [dim, hid]
    let W3 := I.normal (keys + 2) .float16 ⟨0, 1⟩ ⟨25, 4⟩ [hid, dim]
    let Q := fun p W => I.quantize p d.group_size d.bits W
    w.value I (ns.length + 3) = Q .data W1 ∧ w.value I (ns.length + 4) = Q .scale W1 ∧
    w.value I (ns.length + 5) = Q .bias W1 ∧ w.value I (ns.length + 6) = Q .data W2 ∧
    w.value I (ns.length + 7) = Q .scale W2 ∧ w.value I (ns.length + 8) = Q .bias W2 ∧
    w.value I (ns.length + 9) = Q .data W3 ∧ w.value I (ns.length + 10) = Q .scale W3 ∧
    w.value I (ns.length + 11) = Q .bias W3 := by
  intro W1 W2 W3 Q
  have e := fun j nd h => getElem_of_extends hp j nd h
  have n1 : w.value I (ns.length + 0) = W1 :=
    value_eq_apply I w _ _ (e 0 _ rfl) (by simp [QuantizedFeedForward.newNodes])
  have n2 : w.value I (ns.length + 1) = W2 :=
    value_eq_apply I w _ _ (e 1 _ rfl) (by simp [QuantizedFeedForward.newNodes])
  have n3 : w.value I (ns.length + 2) = W3 :=
    value_eq_apply I w _ _ (e 2 _ rfl) (by simp [QuantizedFeedForward.newNodes])
  have q : ∀ j p i, (QuantizedFeedForward.newNodes d dim hid keys ns.length t1 t2)[j]?
      = some ⟨.quantize p d.group_size d.bits, [ns.length + i],
          ((QuantizedFeedForward.newNodes d dim hid keys ns.length t1 t2)[j]?.map
            Node.shape).getD []⟩ → i < j →
      w.value I (ns.length + j) = Q p (w.value I (ns.length + i)) := by
    intro j p i hj hij
    exact value_eq_apply I w _ _ (e j _ hj) (by simp; omega)
  refine ⟨?_, ?_, ?_, ?_, ?_, ?_, ?_, ?_, ?_⟩
  · rw [q 3 .data 0 rfl (by omega), n1]
  · rw [q 4 .scale 0 rfl (by omega), n1]
  · rw [q 5 .bias 0 rfl (by omega), n1]
  · rw [q 6 .data 1 rfl (by omega), n2]
  · rw [q 7 .scale 1 rfl (by omega), n2]
  · rw [q 8 .bias 1 rfl (by omega), n2]
  · rw [q 9 .data 2 rfl (by omega), n3]
  · rw [q 10 .scale 2 rfl (by omega), n3]
  · rw [q 11 .bias 2 rfl (by omega), n3]

theorem node_mono {w w' : World} (h : w.nodes <+: w'.nodes) {a : Nat}
    (ha : a < w.nodes.length) : w'.node a = w.node a := by
  obtain ⟨t, ht⟩ := h
  simp only [World.node, ← ht]
  exact List.getElem?_append_left ha

theorem eq_ok_of_returns {α : Type} [DecidableEq α] {r : Except LibError (α × World)} {a : α}
    {w : World} (h : returns r a w = true) : r = .ok (a, w) := by
  unfold returns at h
  split at h
  · simp only [decide_eq_true_eq] at h
    rw [h.1, h.2]
  · cases h

set_option maxHeartbeats 4000000 in
/-- The run of `main` from a fresh process, for each of the supported library defaults. -/
theorem main_run (d : QuantDefaults) (hs : d.supported) :
    main d World.init = .ok (mainLocals, mainWorld d) := by
  rcases supported_cases hs with h | h | h | h | h | h | h | h | h <;> subst h <;>
    exact eq_ok_of_returns (by decide)

/-- Whenever `main` calls `start_capture`, the input, the dense weights and the quantized
tensors have been materialised by an earlier evaluation. -/
theorem mainEvents_materialized (k : Nat) (p : String)
    (hk : mainEvents[k]? = some (.start_capture p)) (a : Nat)
    (ha : a ∈ mainLocals.input :: mainLocals.ff.w1 :: mainLocals.ff.w2 :: mainLocals.ff.w3 ::
      mainLocals.qff.layers) : a ∈ materializedBefore mainEvents k := by
  have hlt : k < mainEvents.length := (List.getElem?_eq_some_iff.mp hk).1
  have key : ∀ j ∈ List.range mainEvents.length,
      ∀ b ∈ mainLocals.input :: mainLocals.ff.w1 :: mainLocals.ff.w2 :: mainLocals.ff.w3 ::
        mainLocals.qff.layers,
      (mainEvents.getD j .stop_capture).isStart = true →
        b ∈ materializedBefore mainEvents j := by decide
  refine key k (List.mem_range.mpr hlt) a ha ?_
  rw [List.getD_eq_getElem?_getD, hk]
  rfl

theorem sampleDense_run :
    FeedForward.new 64 128 sampleWorld = .ok (⟨1, 2, 3⟩, sampleDense) :=
  eq_ok_of_returns (by decide)

theorem sampleDenseOut_run :
    FeedForward.forward ⟨1, 2, 3⟩ 0 sampleDense = .ok ((9, ⟨1, 2, 3⟩), sampleDenseOut) :=
  eq_ok_of_returns (by decide)

theorem sampleQuantized_run :
    QuantizedFeedForward.new sampleDefaults 64 128 sampleWorld =
      .ok (⟨[4, 5, 6, 7, 8, 9, 10, 11, 12]⟩, sampleQuantized) :=
  eq_ok_of_returns (by decide)

theorem sampleQuantizedOut_run :
    QuantizedFeedForward.forward sampleDefaults ⟨[4, 5, 6, 7, 8, 9, 10, 11, 12]⟩ 0
      sampleQuantized = .ok ((18, ⟨[4, 5, 6, 7, 8, 9, 10, 11, 12]⟩), sampleQuantizedOut) :=
  eq_ok_of_returns (by decide)

end Lemmas

/-! ## The claims -/

section Claims

/-- C1. For all `dim`, `hidden_dim` and `n` (in particular positive ones): constructing
`FeedForward(dim, hidden_dim)` succeeds, and in every later world of the run `forward`,
applied to an input of shape `[n, dim]`, raises no error in any of its three matrix multiplies
and two elementwise multiplies and returns a tensor of shape `[n, dim]`. -/
theorem FeedForward_forward_shape (dim hidden_dim n : Nat) (w0 : World) :
    ∃ ff w1, FeedForward.new dim hidden_dim w0 = .ok (ff, w1) ∧
      ∀ w input, w1.nodes <+: w.nodes → w.shapeOf input = .ok [n, dim] →
        ∃ out w', ff.forward input w = .ok ((out, ff), w') ∧
          w'.shapeOf out = .ok [n, dim] := by
  refine ⟨_, _, FeedForward_new_eq dim hidden_dim w0, ?_⟩
  intro w input hp hi
  have hnodes := materialize_nodes
    { w0 with nodes := w0.nodes ++ FeedForward.newNodes dim hidden_dim w0.keys,
              keys := w0.keys + 3 }
    [w0.nodes.length, w0.nodes.length + 1, w0.nodes.length + 2]
  have s1 := shapeOf_mono hp
    ((shapeOf_append_add _ _ _ hnodes 0).trans (by simp [FeedForward.newNodes]; rfl))
  have s2 := shapeOf_mono hp
    ((shapeOf_append_add _ _ _ hnodes 1).trans (by simp [FeedForward.newNodes]; rfl))
  have s3 := shapeOf_mono hp
    ((shapeOf_append_add _ _ _ hnodes 2).trans (by simp [FeedForward.newNodes]; rfl))
  refine ⟨_, _, (forward_eq_ok _ input w (lt_of_shapeOf s2) (lt_of_shapeOf s3) _).mpr
    ⟨_, _, _, _, _, _, hi, s1, s2, s3, matmulShape_matrix n dim hidden_dim,
      matmulShape_matrix n dim hidden_dim, matmulShape_matrix n hidden_dim dim, rfl⟩, ?_⟩
  rw [shapeOf_extend]
  simp [forwardNodes]

/-- C1 at `dim = 64`, `hidden_dim = 128`, `n = 1`: the constructor run from the example
world returns the object with weights 1, 2, 3, and its forward pass on the input of shape
`[1, 64]` returns a tensor of shape `[1, 64]`. -/
theorem FeedForward_forward_shape_witness :
    FeedForward.new 64 128 sampleWorld = .ok (⟨1, 2, 3⟩, sampleDense) ∧
      sampleDense.shapeOf 0 = .ok [1, 64] ∧
      ∃ out w', FeedForward.forward ⟨1, 2, 3⟩ 0 sampleDense = .ok ((out, ⟨1, 2, 3⟩), w') ∧
        w'.shapeOf out = .ok [1, 64] := by
  obtain ⟨ff, w1, hnew, h⟩ := FeedForward_forward_shape 64 128 1 sampleWorld
  rw [sampleDense_run] at hnew
  simp only [Except.ok.injEq, Prod.mk.injEq] at hnew
  obtain ⟨hff, hw⟩ := hnew
  subst hff hw
  exact ⟨sampleDense_run, rfl, h sampleDense 0 ⟨[], List.append_nil _⟩ rfl⟩

/-- C2, counterexample. With groups of 64 elements the constructor
`QuantizedFeedForward(1, 1)` raises the library's quantization error, so no forward pass and
no output of shape `[n, 1]` exists. -/
theorem quantized_shape_counterexample :
    QuantizedFeedForward.new ⟨64, 4, true⟩ 1 1 World.init = .error .quantize_shape ∧
      ¬ ∃ r, QuantizedFeedForward.new ⟨64, 4, true⟩ 1 1 World.init = .ok r := by
  have h : QuantizedFeedForward.new ⟨64, 4, true⟩ 1 1 World.init = .error .quantize_shape :=
    rfl
  refine ⟨h, ?_⟩
  rintro ⟨r, hr⟩
  rw [h] at hr
  cases hr

/-- C2, amended. For supported library defaults and every `dim` and `hidden_dim` that are
multiples of the quantization group size: constructing `QuantizedFeedForward(dim,
hidden_dim)` succeeds, and in every later world of the run `forward`, applied to an input
of shape `[n, dim]`, succeeds and returns a tensor of shape `[n, dim]`. -/
theorem quantized_forward_shape (d : QuantDefaults) (dim hidden_dim n : Nat)
    (w0 : World) (hs : d.supported) (hd : d.group_size ∣ dim)
    (hh : d.group_size ∣ hidden_dim) :
    ∃ qff w1, QuantizedFeedForward.new d dim hidden_dim w0 = .ok (qff, w1) ∧
      ∀ w input, w1.nodes <+: w.nodes → w.shapeOf input = .ok [n, dim] →
        ∃ out w', qff.forward d input w = .ok ((out, qff), w') ∧
          w'.shapeOf out = .ok [n, dim] := by
  have hnew := QuantizedFeedForward_new_eq d dim hidden_dim w0
  rw [quantizeShapes_ok d hs hidden_dim dim hd, quantizeShapes_ok d hs dim hidden_dim hh]
    at hnew
  refine ⟨_, _, hnew, ?_⟩
  intro w input hp hi
  have hnodes := materialize_nodes
    { w0 with nodes := w0.nodes ++ QuantizedFeedForward.newNodes d dim hidden_dim w0.keys
                w0.nodes.length (tripleShapes d hidden_dim dim) (tripleShapes d dim hidden_dim),
              keys := w0.keys + 3 }
    (QuantizedFeedForward.newLayers w0.nodes.length)
  have sh : ∀ j nd, (QuantizedFeedForward.newNodes d dim hidden_dim w0.keys
      w0.nodes.length (tripleShapes d hidden_dim dim) (tripleShapes d dim hidden_dim))[j]?
        = some nd → w.shapeOf (w0.nodes.length + j) = .ok nd.shape := by
    intro j nd hj
    refine shapeOf_mono hp ((shapeOf_append_add _ _ _ hnodes j).trans ?_)
    rw [hj]
  have s3 := sh 3 _ rfl
  have s4 := sh 4 _ rfl
  have s5 := sh 5 _ rfl
  have s6 := sh 6 _ rfl
  have s7 := sh 7 _ rfl
  have s8 := sh 8 _ rfl
  have s9 := sh 9 _ rfl
  have s10 := sh 10 _ rfl
  have s11 := sh 11 _ rfl
  refine ⟨_, _, (quantized_forward_eq_ok d _ _ _ _ _ _ _ _ _ input w (lt_of_shapeOf s6)
    (lt_of_shapeOf s7) (lt_of_shapeOf s8) (lt_of_shapeOf s9) (lt_of_shapeOf s10)
    (lt_of_shapeOf s11) _).mpr
    ⟨_, _, _, _, _, _, _, _, _, _, _, _, hi, s3, s4, s5, s6, s7, s8, s9, s10, s11,
      quantizedMatmulShape_ok d hs n hidden_dim dim hd,
      quantizedMatmulShape_ok d hs n hidden_dim dim hd,
      quantizedMatmulShape_ok d hs n dim hidden_dim hh, rfl⟩, ?_⟩
  rw [shapeOf_extend]
  simp [quantizedForwardNodes]

/-- C2 (amended) at the example defaults, `dim = 64`, `hidden_dim = 128`, `n = 1`. -/
theorem quantized_forward_shape_witness :
    sampleDefaults.supported ∧ sampleDefaults.group_size ∣ 64 ∧
      sampleDefaults.group_size ∣ 128 ∧
      ∃ qff w1, QuantizedFeedForward.new sampleDefaults 64 128 sampleWorld = .ok (qff, w1) ∧
        ∀ w input, w1.nodes <+: w.nodes → w.shapeOf input = .ok [1, 64] →
          ∃ out w', qff.forward sampleDefaults input w = .ok ((out, qff), w') ∧
            w'.shapeOf out = .ok [1, 64] :=
  ⟨by decide, by decide, by decide,
    quantized_forward_shape sampleDefaults 64 128 1 sampleWorld (by decide)
      (by decide) (by decide)⟩

/-- C3. Whenever `forward` returns, on an object whose weights are tensors of the current
graph: the result is `matmul(act, W2)` with `x = matmul(input, W1)` and
`act = (x * sigmoid(x)) * matmul(input, W3)`. -/
theorem FeedForward_forward_value {T : Type} (I : Interp T) (ff ff' : FeedForward)
    (input out : Nat) (w w' : World)
    (hw1 : ff.w1 < w.nodes.length) (hw2 : ff.w2 < w.nodes.length)
    (hw3 : ff.w3 < w.nodes.length)
    (h : ff.forward input w = .ok ((out, ff'), w')) :
    let x := I.matmul (w.value I input) (w.value I ff.w1)
    let act := I.multiply (I.multiply x (I.sigmoid x))
      (I.matmul (w.value I input) (w.value I ff.w3))
    w'.value I out = I.matmul act (w.value I ff.w2) :=
  forward_value_aux I ff ff' input out w w' hw1 hw2 hw3 h

/-- C3 in the example world, for the free interpretation: the value of the result is the
term of the gated feed-forward expression. -/
theorem FeedForward_forward_value_witness :
    (1 < sampleDense.nodes.length ∧ 2 < sampleDense.nodes.length ∧
      3 < sampleDense.nodes.length) ∧
      FeedForward.forward ⟨1, 2, 3⟩ 0 sampleDense = .ok ((9, ⟨1, 2, 3⟩), sampleDenseOut) ∧
      sampleDenseOut.value Interp.free 9 =
        Term.matmul
          (Term.multiply
            (Term.multiply
              (Term.matmul (sampleDense.value Interp.free 0) (sampleDense.value Interp.free 1))
              (Term.sigmoid (Term.matmul (sampleDense.value Interp.free 0)
                (sampleDense.value Interp.free 1))))
            (Term.matmul (sampleDense.value Interp.free 0) (sampleDense.value Interp.free 3)))
          (sampleDense.value Interp.free 2) :=
  ⟨by decide, sampleDenseOut_run,
    FeedForward_forward_value Interp.free ⟨1, 2, 3⟩ ⟨1, 2, 3⟩ 0 9 sampleDense sampleDenseOut
      (by decide) (by decide) (by decide) sampleDenseOut_run⟩

/-- C4. Whenever `QuantizedFeedForward(dim, hidden_dim)` has been constructed and `forward`
returns in a later world of the run, the result is `qmm(act, w2)` with `x = qmm(input, w1)`
and `act = (x * sigmoid(x)) * qmm(input, w3)`, where `qmm(t, w)` is the quantized multiply
of `t` by the data, scale and bias, in this order, of one `quantize` call on `w`, and
`w1, w2, w3` are the three weights sampled by the constructor. The object is unchanged. -/
theorem quantized_forward_value {T : Type} (I : Interp T) (d : QuantDefaults)
    (dim hidden_dim input out : Nat) (w0 w1 w w' : World) (qff qff' : QuantizedFeedForward)
    (hnew : QuantizedFeedForward.new d dim hidden_dim w0 = .ok (qff, w1))
    (hext : w1.nodes <+: w.nodes)
    (hfw : qff.forward d input w = .ok ((out, qff'), w')) :
    let W1 := I.normal w0.keys .float16 ⟨0, 1⟩ ⟨25, 4⟩ [hidden_dim, dim]
    let W2 := I.normal (w0.keys + 1) .float16 ⟨0, 1⟩ ⟨25, 4⟩ [dim, hidden_dim]
    let W3 := I.normal (w0.keys + 2) .float16 ⟨0, 1⟩ ⟨25, 4⟩ [hidden_dim, dim]
    let qmm := fun t W => I.quantized_matmul d.transpose d.group_size d.bits t
      (I.quantize .data d.group_size d.bits W) (I.quantize .scale d.group_size d.bits W)
      (I.quantize .bias d.group_size d.bits W)
    let x := qmm (w.value I input) W1
    let act := I.multiply (I.multiply x (I.sigmoid x)) (qmm (w.value I input) W3)
    w'.value I out = qmm act W2 ∧ qff' = qff := by
  intro W1 W2 W3 qmm x act
  rw [QuantizedFeedForward_new_eq] at hnew
  rcases h1 : quantizeShapes [hidden_dim, dim] d.group_size d.bits with e1 | t1
  · rw [h1] at hnew
    cases hnew
  rcases h2 : quantizeShapes [dim, hidden_dim] d.group_size d.bits with e2 | t2
  · rw [h1, h2] at hnew
    cases hnew
  rw [h1, h2] at hnew
  simp only [Except.ok.injEq, Prod.mk.injEq] at hnew
  obtain ⟨hq, hw1⟩ := hnew
  subst hq
  have hp : w0.nodes ++ QuantizedFeedForward.newNodes d dim hidden_dim w0.keys
      w0.nodes.length t1 t2 <+: w.nodes := by
    rw [← hw1] at hext
    exact hext
  have hlen : w0.nodes.length + 12 ≤ w.nodes.length := by
    have := hp.length_le
    simpa [QuantizedFeedForward.newNodes] using this
  obtain ⟨v3, v4, v5, v6, v7, v8, v9, v10, v11⟩ :=
    quantized_layer_values I d dim hidden_dim w0.keys w0.nodes t1 t2 w hp
  simp only [QuantizedFeedForward.newLayers] at hfw
  rw [quantized_forward_eq_ok d _ _ _ _ _ _ _ _ _ input w (by omega) (by omega) (by omega)
    (by omega) (by omega) (by omega)] at hfw
  obtain ⟨si, a0, a1, a2, a3, a4, a5, a6, a7, a8, s1, s6, hi, -, -, -, -, -, -, -, -, -, -, -,
    -, hr⟩ := hfw
  have bi := lt_of_shapeOf hi
  simp only [Prod.mk.injEq] at hr
  obtain ⟨⟨ho, hq'⟩, hw'⟩ := hr
  refine ⟨?_, by rw [hq']; rfl⟩
  rw [ho, hw']
  generalize hN : quantizedForwardNodes d (w0.nodes.length + 3) (w0.nodes.length + 4)
    (w0.nodes.length + 5) (w0.nodes.length + 6) (w0.nodes.length + 7) (w0.nodes.length + 8)
    (w0.nodes.length + 9) (w0.nodes.length + 10) (w0.nodes.length + 11) input w.nodes.length
    s1 s6 = N
  have hpw := nodes_extend w N
  have e := extend_getElem w N
  generalize hW : w.extend N = W at hpw e
  subst hN
  have m : ∀ a, a < w.nodes.length → W.value I a = w.value I a :=
    fun a ha => value_mono I hpw ha
  have u0 : W.value I (w.nodes.length + 0) = I.quantized_matmul d.transpose d.group_size
      d.bits (W.value I input) (W.value I (w0.nodes.length + 3))
      (W.value I (w0.nodes.length + 4)) (W.value I (w0.nodes.length + 5)) :=
    value_eq_apply I W _ ⟨.quantized_matmul d.transpose d.group_size d.bits,
      [input, w0.nodes.length + 3, w0.nodes.length + 4, w0.nodes.length + 5], s1⟩
      ((e 0).trans rfl) (by simp; omega)
  have u1 : W.value I (w.nodes.length + 1) = I.sigmoid (W.value I (w.nodes.length + 0)) :=
    value_eq_apply I W _ ⟨.sigmoid, [w.nodes.length], s1⟩ ((e 1).trans rfl) (by simp)
  have u2 : W.value I (w.nodes.length + 2) =
      I.multiply (W.value I (w.nodes.length + 0)) (W.value I (w.nodes.length + 1)) :=
    value_eq_apply I W _ ⟨.multiply, [w.nodes.length, w.nodes.length + 1], s1⟩
      ((e 2).trans rfl) (by simp)
  have u3 : W.value I (w.nodes.length + 3) = I.quantized_matmul d.transpose d.group_size
      d.bits (W.value I input) (W.value I (w0.nodes.length + 9))
      (W.value I (w0.nodes.length + 10)) (W.value I (w0.nodes.length + 11)) :=
    value_eq_apply I W _ ⟨.quantized_matmul d.transpose d.group_size d.bits,
      [input, w0.nodes.length + 9, w0.nodes.length + 10, w0.nodes.length + 11], s1⟩
      ((e 3).trans rfl) (by simp; omega)
  have u4 : W.value I (w.nodes.length + 4) =
      I.multiply (W.value I (w.nodes.length + 2)) (W.value I (w.nodes.length + 3)) :=
    value_eq_apply I W _ ⟨.multiply, [w.nodes.length + 2, w.nodes.length + 3], s1⟩
      ((e 4).trans rfl) (by simp)
  have u5 : W.value I (w.nodes.length + 5) = I.quantized_matmul d.transpose d.group_size
      d.bits (W.value I (w.nodes.length + 4)) (W.value I (w0.nodes.length + 6))
      (W.value I (w0.nodes.length + 7)) (W.value I (w0.nodes.length + 8)) :=
    value_eq_apply I W _ ⟨.quantized_matmul d.transpose d.group_size d.bits,
      [w.nodes.length + 4, w0.nodes.length + 6, w0.nodes.length + 7, w0.nodes.length + 8],
      s6⟩ ((e 5).trans rfl) (by simp; omega)
  rw [u5, u4, u3, u2, u1, u0, m input bi, m _ (by omega), m _ (by omega), m _ (by omega),
    m _ (by omega), m _ (by omega), m _ (by omega), m _ (by omega), m _ (by omega),
    m _ (by omega), v3, v4, v5, v6, v7, v8, v9, v10, v11]

/-- C4 in the example world, for the free interpretation: the value of the result is the
term built from the three sampled weights, each quantized once. -/
theorem quantized_forward_value_witness :
    QuantizedFeedForward.new sampleDefaults 64 128 sampleWorld =
        .ok (⟨[4, 5, 6, 7, 8, 9, 10, 11, 12]⟩, sampleQuantized) ∧
      sampleQuantized.nodes <+: sampleQuantized.nodes ∧
      QuantizedFeedForward.forward sampleDefaults ⟨[4, 5, 6, 7, 8, 9, 10, 11, 12]⟩ 0
        sampleQuantized = .ok ((18, ⟨[4, 5, 6, 7, 8, 9, 10, 11, 12]⟩), sampleQuantizedOut) ∧
      (let W1 := Term.normal 1 .float16 ⟨0, 1⟩ ⟨25, 4⟩ [128, 64]
       let W2 := Term.normal 2 .float16 ⟨0, 1⟩ ⟨25, 4⟩ [64, 128]
       let W3 := Term.normal 3 .float16 ⟨0, 1⟩ ⟨25, 4⟩ [128, 64]
       let qmm := fun t W => Term.quantized_matmul true 64 4 t (Term.quantize .data 64 4 W)
         (Term.quantize .scale 64 4 W) (Term.quantize .bias 64 4 W)
       let x := qmm (sampleQuantized.value Interp.free 0) W1
       let act := Term.multiply (Term.multiply x (Term.sigmoid x))
         (qmm (sampleQuantized.value Interp.free 0) W3)
       sampleQuantizedOut.value Interp.free 18 = qmm act W2) :=
  ⟨sampleQuantized_run, ⟨[], List.append_nil _⟩, sampleQuantizedOut_run,
    (quantized_forward_value Interp.free sampleDefaults 64 128 0 18 sampleWorld
      sampleQuantized sampleQuantized sampleQuantizedOut _ _ sampleQuantized_run
      ⟨[], List.append_nil _⟩ sampleQuantizedOut_run).1⟩

/-- C5, counterexample. For `dim = 64` and `hidden_dim = 128` both constructors succeed, and
the three weights sampled by `QuantizedFeedForward` have the shapes `[128, 64]`,
`[64, 128]`, `[128, 64]`, not the shapes `[64, 128]`, `[128, 64]`, `[64, 128]` of the
weights sampled by `FeedForward`. -/
theorem quantized_weights_differ :
    ∃ ff wF qff wQ, FeedForward.new 64 128 World.init = .ok (ff, wF) ∧
      QuantizedFeedForward.new ⟨64, 4, true⟩ 64 128 World.init = .ok (qff, wQ) ∧
      (wF.nodes.take 3).map Node.shape = [[64, 128], [128, 64], [64, 128]] ∧
      (wQ.nodes.take 3).map Node.shape = [[128, 64], [64, 128], [128, 64]] ∧
      (wQ.nodes.take 3).map Node.shape ≠ (wF.nodes.take 3).map Node.shape :=
  ⟨_, _, _, _, rfl, rfl, rfl, rfl, by decide⟩

/-- C5, amended. Whenever the constructor of `QuantizedFeedForward` returns: the three
weights it sampled are float16 tensors drawn with mean 0.0 and standard deviation 0.0025
from the next three keys, exactly as the weights `FeedForward`'s constructor samples in the
same world except that each shape is the transpose of `FeedForward`'s, namely
`[hidden_dim, dim]`, `[dim, hidden_dim]`, `[hidden_dim, dim]`; and the object retains exactly
nine tensors, the (data, scale, bias) triples of the first, second and third weight. -/
theorem quantized_new_weights (d : QuantDefaults) (dim hidden_dim : Nat)
    (w0 w1 : World) (qff : QuantizedFeedForward)
    (h : QuantizedFeedForward.new d dim hidden_dim w0 = .ok (qff, w1)) :
    (w1.nodes.drop w0.nodes.length).take 3 =
        [⟨.normal w0.keys .float16 ⟨0, 1⟩ ⟨25, 4⟩, [], [hidden_dim, dim]⟩,
         ⟨.normal (w0.keys + 1) .float16 ⟨0, 1⟩ ⟨25, 4⟩, [], [dim, hidden_dim]⟩,
         ⟨.normal (w0.keys + 2) .float16 ⟨0, 1⟩ ⟨25, 4⟩, [], [hidden_dim, dim]⟩] ∧
      (∃ ff wF, FeedForward.new dim hidden_dim w0 = .ok (ff, wF) ∧
        ((wF.nodes.drop w0.nodes.length).take 3).map (fun nd => (nd.op, nd.shape.reverse)) =
          ((w1.nodes.drop w0.nodes.length).take 3).map (fun nd => (nd.op, nd.shape))) ∧
      qff.layers.length = 9 ∧
      qff.layers = List.range' (w0.nodes.length + 3) 9 ∧
      (w1.nodes.drop (w0.nodes.length + 3)).map (fun nd => (nd.op, nd.inputs)) =
        [(.quantize .data d.group_size d.bits, [w0.nodes.length]),
         (.quantize .scale d.group_size d.bits, [w0.nodes.length]),
         (.quantize .bias d.group_size d.bits, [w0.nodes.length]),
         (.quantize .data d.group_size d.bits, [w0.nodes.length + 1]),
         (.quantize .scale d.group_size d.bits, [w0.nodes.length + 1]),
         (.quantize .bias d.group_size d.bits, [w0.nodes.length + 1]),
         (.quantize .data d.group_size d.bits, [w0.nodes.length + 2]),
         (.quantize .scale d.group_size d.bits, [w0.nodes.length + 2]),
         (.quantize .bias d.group_size d.bits, [w0.nodes.length + 2])] := by
  rw [QuantizedFeedForward_new_eq] at h
  rcases h1 : quantizeShapes [hidden_dim, dim] d.group_size d.bits with e1 | t1
  · rw [h1] at h
    cases h
  rcases h2 : quantizeShapes [dim, hidden_dim] d.group_size d.bits with e2 | t2
  · rw [h1, h2] at h
    cases h
  rw [h1, h2] at h
  simp only [Except.ok.injEq, Prod.mk.injEq] at h
  obtain ⟨hq, hw1⟩ := h
  subst hq hw1
  refine ⟨?_, ⟨_, _, FeedForward_new_eq dim hidden_dim w0, ?_⟩, ?_, ?_, ?_⟩
  · simp [World.materialize, QuantizedFeedForward.newNodes]
  · simp [World.materialize, QuantizedFeedForward.newNodes, FeedForward.newNodes]
  · simp [QuantizedFeedForward.newLayers]
  · simp [QuantizedFeedForward.newLayers, List.range']
  · simp [World.materialize, QuantizedFeedForward.newNodes]

/-- C5 (amended) in the example world: the constructor returns, the object holds nine
tensors and the first sampled weight has shape `[128, 64]`. -/
theorem quantized_new_weights_witness :
    QuantizedFeedForward.new sampleDefaults 64 128 sampleWorld =
        .ok (⟨[4, 5, 6, 7, 8, 9, 10, 11, 12]⟩, sampleQuantized) ∧
      (⟨[4, 5, 6, 7, 8, 9, 10, 11, 12]⟩ : QuantizedFeedForward).layers.length = 9 ∧
      (sampleQuantized.nodes.drop sampleWorld.nodes.length).take 3 =
        [⟨.normal sampleWorld.keys .float16 ⟨0, 1⟩ ⟨25, 4⟩, [], [128, 64]⟩,
         ⟨.normal (sampleWorld.keys + 1) .float16 ⟨0, 1⟩ ⟨25, 4⟩, [], [64, 128]⟩,
         ⟨.normal (sampleWorld.keys + 2) .float16 ⟨0, 1⟩ ⟨25, 4⟩, [], [128, 64]⟩] :=
  ⟨sampleQuantized_run,
    (quantized_new_weights sampleDefaults 64 128 sampleWorld sampleQuantized _
      sampleQuantized_run).2.2.1,
    (quantized_new_weights sampleDefaults 64 128 sampleWorld sampleQuantized _
      sampleQuantized_run).1⟩

/-- C6. For supported library defaults `main` returns, and in the calls it issued
`start_capture` and `stop_capture` alternate, starting with a start and ending with a stop:
the capture depth after every prefix of the calls is 0 or 1, and it is 0 when `main`
returns. -/
theorem main_capture_paired (d : QuantDefaults) (hs : d.supported) :
    ∃ L W, main d World.init = .ok (L, W) ∧
      W.events.filter Event.isCapture =
        [.start_capture "/Users/arpandhatt/Downloads/ff.gputrace", .stop_capture,
         .start_capture "/Users/arpandhatt/Downloads/qff.gputrace", .stop_capture] ∧
      (∀ k ∈ List.range (W.events.length + 1),
        captureDepth (W.events.take k) = 0 ∨ captureDepth (W.events.take k) = 1) ∧
      captureDepth W.events = 0 := by
  refine ⟨_, _, main_run d hs, ?_, ?_, ?_⟩
  · rfl
  · show ∀ k ∈ List.range (mainEvents.length + 1),
      captureDepth (mainEvents.take k) = 0 ∨ captureDepth (mainEvents.take k) = 1
    decide
  · rfl

/-- C6 at the example defaults. -/
theorem main_capture_paired_witness :
    sampleDefaults.supported ∧
      ∃ L W, main sampleDefaults World.init = .ok (L, W) ∧
        W.events.filter Event.isCapture =
          [.start_capture "/Users/arpandhatt/Downloads/ff.gputrace", .stop_capture,
           .start_capture "/Users/arpandhatt/Downloads/qff.gputrace", .stop_capture] ∧
        (∀ k ∈ List.range (W.events.length + 1),
          captureDepth (W.events.take k) = 0 ∨ captureDepth (W.events.take k) = 1) ∧
        captureDepth W.events = 0 :=
  ⟨by decide, main_capture_paired sampleDefaults (by decide)⟩

/-- C7. For supported library defaults: let the run of `main` pass through the worlds before
and after each constructor and each forward call. Then both captures are started after all
this, the only call between the first `start_capture` and its `stop_capture` is the
evaluation of `ffout` and it computes exactly the nodes created by the dense forward call,
the only call between the second `start_capture` and its `stop_capture` is the evaluation
of `qffout` and it computes exactly the nodes created by the quantized forward call, and
whenever `start_capture` is called the input, the three dense weights and the nine quantized
tensors are already materialised. -/
theorem main_capture_contents (d : QuantDefaults) (hs : d.supported) :
    ∃ w0 wA wB wC wD wE L W rest,
      random.normal [256, 4096] .float16 ⟨0, 1⟩ ⟨1, 1⟩ World.init = .ok (L.input, w0) ∧
      eval [L.input] w0 = .ok ((), wA) ∧
      FeedForward.new 4096 14336 wA = .ok (L.ff, wB) ∧
      L.ff.forward L.input wB = .ok ((L.ffout, L.ff), wC) ∧
      QuantizedFeedForward.new d 4096 14336 wC = .ok (L.qff, wD) ∧
      L.qff.forward d L.input wD = .ok ((L.qffout, L.qff), wE) ∧
      main d World.init = .ok (L, W) ∧
      W.events = wE.events ++
        [.start_capture "/Users/arpandhatt/Downloads/ff.gputrace",
         .eval [L.ffout] (createdBetween wB wC),
         .stop_capture,
         .start_capture "/Users/arpandhatt/Downloads/qff.gputrace",
         .eval [L.qffout] (createdBetween wD wE),
         .stop_capture] ++ rest ∧
      (wE.events ++ rest).all (fun e => !e.isCapture) = true ∧
      materializedBefore W.events wE.events.length = wE.evaled ∧
      ∀ k p, W.events[k]? = some (.start_capture p) →
        ∀ a ∈ L.input :: L.ff.w1 :: L.ff.w2 :: L.ff.w3 :: L.qff.layers,
          a ∈ materializedBefore W.events k := by
  have hm := main_run d hs
  rcases supported_cases hs with h | h | h | h | h | h | h | h | h <;> subst h <;>
    exact ⟨_, _, _, _, _, _, mainLocals, _, [.eval [29] [28, 29], .eval [31] [30, 31]],
      rfl, rfl, rfl, rfl, rfl, rfl, hm, rfl, rfl, rfl, mainEvents_materialized⟩

/-- C7 at the example defaults: `main` returns and the two captured evaluations compute the
nodes 4 to 9 and 22 to 27. -/
theorem main_capture_contents_witness :
    sampleDefaults.supported ∧
      ∃ L W, main sampleDefaults World.init = .ok (L, W) ∧
        W.events.drop 3 =
          [.start_capture "/Users/arpandhatt/Downloads/ff.gputrace",
           .eval [9] [4, 5, 6, 7, 8, 9], .stop_capture,
           .start_capture "/Users/arpandhatt/Downloads/qff.gputrace",
           .eval [27] [22, 23, 24, 25, 26, 27], .stop_capture,
           .eval [29] [28, 29], .eval [31] [30, 31]] := by
  refine ⟨by decide, ?_⟩
  obtain ⟨w0, wA, wB, wC, wD, wE, L, W, rest, -, -, -, -, -, -, hm, -⟩ :=
    main_capture_contents sampleDefaults (by decide)
  refine ⟨L, W, hm, ?_⟩
  rw [main_run sampleDefaults (by decide)] at hm
  simp only [Except.ok.injEq, Prod.mk.injEq] at hm
  rw [← hm.2]
  rfl

/-- C8. For supported library defaults `main` returns having written to standard output
exactly: the scalar of the node `mean(diff)`, one space, the scalar of the node
`max(abs(diff))`, and a newline, where `diff` is the node `qffout - ffout` in this order of
operands, and `ffout` and `qffout` are the dense and the quantized forward pass of the same
input tensor. -/
theorem main_prints_difference (d : QuantDefaults) (hs : d.supported) :
    ∃ L W m a mx, main d World.init = .ok (L, W) ∧
      W.node L.diff = some ⟨.subtract, [L.qffout, L.ffout], [256, 4096]⟩ ∧
      W.node m = some ⟨.mean, [L.diff], []⟩ ∧
      W.node a = some ⟨.abs, [L.diff], [256, 4096]⟩ ∧
      W.node mx = some ⟨.max, [a], []⟩ ∧
      W.stdout = [.scalar m, .text " ", .scalar mx, .endl] ∧
      ∀ (T : Type) (I : Interp T),
        let v := W.value I
        let l := fun i => v (L.qff.layers.getD i 0)
        let qmm := fun t q s b => I.quantized_matmul d.transpose d.group_size d.bits t q s b
        let x := I.matmul (v L.input) (v L.ff.w1)
        let y := qmm (v L.input) (l 0) (l 1) (l 2)
        v L.ffout = I.matmul (I.multiply (I.multiply x (I.sigmoid x))
          (I.matmul (v L.input) (v L.ff.w3))) (v L.ff.w2) ∧
        v L.qffout = qmm (I.multiply (I.multiply y (I.sigmoid y))
          (qmm (v L.input) (l 6) (l 7) (l 8))) (l 3) (l 4) (l 5) ∧
        v L.diff = I.subtract (v L.qffout) (v L.ffout) ∧
        v m = I.mean (v L.diff) ∧
        v mx = I.max (I.abs (v L.diff)) := by
  refine ⟨_, _, 29, 30, 31, main_run d hs, rfl, rfl, rfl, rfl, rfl, ?_⟩
  intro T I v l qmm x y
  have e4 : v 4 = I.matmul (v 0) (v 1) :=
    value_eq_apply I (mainWorld d) 4 ⟨.matmul, [0, 1], [256, 14336]⟩ rfl (by decide)
  have e5 : v 5 = I.sigmoid (v 4) :=
    value_eq_apply I (mainWorld d) 5 ⟨.sigmoid, [4], [256, 14336]⟩ rfl (by decide)
  have e6 : v 6 = I.multiply (v 4) (v 5) :=
    value_eq_apply I (mainWorld d) 6 ⟨.multiply, [4, 5], [256, 14336]⟩ rfl (by decide)
  have e7 : v 7 = I.matmul (v 0) (v 3) :=
    value_eq_apply I (mainWorld d) 7 ⟨.matmul, [0, 3], [256, 14336]⟩ rfl (by decide)
  have e8 : v 8 = I.multiply (v 6) (v 7) :=
    value_eq_apply I (mainWorld d) 8 ⟨.multiply, [6, 7], [256, 14336]⟩ rfl (by decide)
  have e9 : v 9 = I.matmul (v 8) (v 2) :=
    value_eq_apply I (mainWorld d) 9 ⟨.matmul, [8, 2], [256, 4096]⟩ rfl (by decide)
  have e22 : v 22 = qmm (v 0) (v 13) (v 14) (v 15) :=
    value_eq_apply I (mainWorld d) 22 ⟨.quantized_matmul d.transpose d.group_size d.bits,
      [0, 13, 14, 15], [256, 14336]⟩ rfl (by simp)
  have e23 : v 23 = I.sigmoid (v 22) :=
    value_eq_apply I (mainWorld d) 23 ⟨.sigmoid, [22], [256, 14336]⟩ rfl (by decide)
  have e24 : v 24 = I.multiply (v 22) (v 23) :=
    value_eq_apply I (mainWorld d) 24 ⟨.multiply, [22, 23], [256, 14336]⟩ rfl (by decide)
  have e25 : v 25 = qmm (v 0) (v 19) (v 20) (v 21) :=
    value_eq_apply I (mainWorld d) 25 ⟨.quantized_matmul d.transpose d.group_size d.bits,
      [0, 19, 20, 21], [256, 14336]⟩ rfl (by simp)
  have e26 : v 26 = I.multiply (v 24) (v 25) :=
    value_eq_apply I (mainWorld d) 26 ⟨.multiply, [24, 25], [256, 14336]⟩ rfl (by decide)
  have e27 : v 27 = qmm (v 26) (v 16) (v 17) (v 18) :=
    value_eq_apply I (mainWorld d) 27 ⟨.quantized_matmul d.transpose d.group_size d.bits,
      [26, 16, 17, 18], [256, 4096]⟩ rfl (by simp)
  have e28 : v 28 = I.subtract (v 27) (v 9) :=
    value_eq_apply I (mainWorld d) 28 ⟨.subtract, [27, 9], [256, 4096]⟩ rfl (by decide)
  have e29 : v 29 = I.mean (v 28) :=
    value_eq_apply I (mainWorld d) 29 ⟨.mean, [28], []⟩ rfl (by decide)
  have e30 : v 30 = I.abs (v 28) :=
    value_eq_apply I (mainWorld d) 30 ⟨.abs, [28], [256, 4096]⟩ rfl (by decide)
  have e31 : v 31 = I.max (v 30) :=
    value_eq_apply I (mainWorld d) 31 ⟨.max, [30], []⟩ rfl (by decide)
  refine ⟨?_, ?_, e28, e29, ?_⟩
  · show v 9 = _
    rw [e9, e8, e7, e6, e5, e4]
    rfl
  · show v 27 = _
    rw [e27, e26, e25, e24, e23, e22]
    rfl
  · show v 31 = _
    rw [e31, e30]
    rfl

/-- C8 at the example defaults: `main` returns having printed the scalars of nodes 29 and
31, separated by a space and followed by a newline. -/
theorem main_prints_difference_witness :
    sampleDefaults.supported ∧
      ∃ L W, main sampleDefaults World.init = .ok (L, W) ∧
        W.stdout = [.scalar 29, .text " ", .scalar 31, .endl] := by
  refine ⟨by decide, ?_⟩
  obtain ⟨L, W, m, a, mx, hm, -⟩ := main_prints_difference sampleDefaults (by decide)
  refine ⟨L, W, hm, ?_⟩
  rw [main_run sampleDefaults (by decide)] at hm
  simp only [Except.ok.injEq, Prod.mk.injEq] at hm
  rw [← hm.2]
  rfl

/-- C9. For supported library defaults and the driver's parameters (input `[256, 4096]`,
`dim = 4096`, `hidden_dim = 14336`) `main` returns, so no library error was raised by either
constructor or either forward pass; both outputs have shape `[256, 4096]`, and so has their
difference, which the library only forms for operands of equal shape. -/
theorem main_shapes (d : QuantDefaults) (hs : d.supported) :
    ∃ L W, main d World.init = .ok (L, W) ∧
      W.shapeOf L.input = .ok [256, 4096] ∧
      W.shapeOf L.ffout = .ok [256, 4096] ∧
      W.shapeOf L.qffout = .ok [256, 4096] ∧
      W.node L.diff = some ⟨.subtract, [L.qffout, L.ffout], [256, 4096]⟩ := by
  refine ⟨_, _, main_run d hs, rfl, rfl, rfl, rfl⟩

/-- C9 at the example defaults. -/
theorem main_shapes_witness :
    sampleDefaults.supported ∧
      ∃ L W, main sampleDefaults World.init = .ok (L, W) ∧
        W.shapeOf L.input = .ok [256, 4096] ∧
        W.shapeOf L.ffout = .ok [256, 4096] ∧
        W.shapeOf L.qffout = .ok [256, 4096] ∧
        W.node L.diff = some ⟨.subtract, [L.qffout, L.ffout], [256, 4096]⟩ :=
  ⟨by decide, main_shapes sampleDefaults (by decide)⟩

/-- C10. Whenever `forward` returns, on an object whose weights are tensors of the current
graph: the object is unchanged; the graph has only grown, so every tensor that existed
before the call, the three weights among them, is the same node with the same value, and
the sets of materialised tensors and the key counter are untouched; and a second call on
the same object with the same input also returns, with a result of the same value as the
first. -/
theorem FeedForward_forward_pure {T : Type} (I : Interp T) (ff ff' : FeedForward)
    (input out : Nat) (w w' : World)
    (hw1 : ff.w1 < w.nodes.length) (hw2 : ff.w2 < w.nodes.length)
    (hw3 : ff.w3 < w.nodes.length)
    (h : ff.forward input w = .ok ((out, ff'), w')) :
    ff' = ff ∧ w.nodes <+: w'.nodes ∧ w'.evaled = w.evaled ∧ w'.keys = w.keys ∧
      (∀ a, a < w.nodes.length → w'.node a = w.node a ∧ w'.value I a = w.value I a) ∧
      ∃ out2 w'', ff'.forward input w' = .ok ((out2, ff), w'') ∧
        w''.value I out2 = w''.value I out ∧
        ∀ a, a < w.nodes.length → w''.node a = w.node a ∧ w''.value I a = w.value I a := by
  have hv := forward_value_aux I ff ff' input out w w' hw1 hw2 hw3 h
  have h0 := h
  rw [forward_eq_ok ff input w hw2 hw3] at h
  obtain ⟨si, sw1, sw2, sw3, s1, s6, hi, h1, h2, h3, hm1, hm3, hm2, hr⟩ := h
  have bi := lt_of_shapeOf hi
  simp only [Prod.mk.injEq] at hr
  obtain ⟨⟨ho, hff⟩, hw'⟩ := hr
  have hp : w.nodes <+: w'.nodes := by
    rw [hw']
    exact nodes_extend _ _
  have hlen : w'.nodes.length = w.nodes.length + 6 := by
    rw [hw', extend_nodes_length]
    rfl
  have hsecond : ff.forward input w' = .ok ((w'.nodes.length + 5, ff),
      w'.extend (forwardNodes ff input w'.nodes.length s1 s6)) :=
    (forward_eq_ok ff input w' (by omega) (by omega) _).mpr
      ⟨si, sw1, sw2, sw3, s1, s6, shapeOf_mono hp hi, shapeOf_mono hp h1, shapeOf_mono hp h2,
        shapeOf_mono hp h3, hm1, hm3, hm2, rfl⟩
  have hv2 := forward_value_aux I ff ff input _ w' _ (by omega) (by omega) (by omega) hsecond
  have hp2 := nodes_extend w' (forwardNodes ff input w'.nodes.length s1 s6)
  refine ⟨hff, hp, by rw [hw']; rfl, by rw [hw']; rfl,
    fun a ha => ⟨node_mono hp ha, value_mono I hp ha⟩, _, _, by rw [hff]; exact hsecond, ?_,
    fun a ha => ⟨?_, ?_⟩⟩
  · rw [value_mono I hp2 (by omega : out < w'.nodes.length)]
    simp only at hv hv2
    rw [hv, hv2, value_mono I hp bi, value_mono I hp hw1, value_mono I hp hw2,
      value_mono I hp hw3]
  · rw [node_mono hp2 (by omega), node_mono hp ha]
  · rw [value_mono I hp2 (by omega), value_mono I hp ha]

/-- C10 in the example world, for the free interpretation: the object is unchanged and a
second call returns a result of the same value. -/
theorem FeedForward_forward_pure_witness :
    (1 < sampleDense.nodes.length ∧ 2 < sampleDense.nodes.length ∧
      3 < sampleDense.nodes.length) ∧
      FeedForward.forward ⟨1, 2, 3⟩ 0 sampleDense = .ok ((9, ⟨1, 2, 3⟩), sampleDenseOut) ∧
      ∃ out2 w'', FeedForward.forward ⟨1, 2, 3⟩ 0 sampleDenseOut =
          .ok ((out2, ⟨1, 2, 3⟩), w'') ∧
        w''.value Interp.free out2 = w''.value Interp.free 9 := by
  obtain ⟨-, -, -, -, -, out2, w'', h2, hv, -⟩ :=
    FeedForward_forward_pure Interp.free ⟨1, 2, 3⟩ ⟨1, 2, 3⟩ 0 9 sampleDense sampleDenseOut
      (by decide) (by decide) (by decide) sampleDenseOut_run
  exact ⟨by decide, sampleDenseOut_run, out2, w'', h2, hv⟩

end Claims

end MetalCapture
